import Mathlib

/-!
# Emote-trend bot: catalog, matcher, usage tracker and response gate

A shallow embedding of the core of `src/bot.js`:

* the two catalog indices `channelEmotes` / `channelEmotesExact` and the block of
  `fetch7TVEmotes` that rebuilds them (bot.js 238-263 and 282-307),
* `detect7TVEmotes` (bot.js 342-381),
* `shouldRespond` and `sendEmoteResponse` (bot.js 386-424),
* the `client.on('message')` handler (bot.js 427-465).

JavaScript `Map`s are insertion-ordered association lists, `Set`s of user names are
`Finset String`, `Date.now()` and `Math.random()` are streams of readings consumed through
two call counters kept in the state. `String.prototype.toLowerCase` is a parameter
(`lower`) of every definition that uses it: nothing below depends on how it folds.

Numbers are exact: clock readings are integers of milliseconds, chances and draws are
rationals, and the one division of the source, by `1000` in `shouldRespond`, is the
division of rationals. The asynchronous parts are events: the `.catch` callback of a
send is `sendFailed`, a catalog fetch that reaches one of the two rebuild blocks is
`loadEmotes`.
-/

namespace Bot

/-! ## JavaScript `Map` as an insertion-ordered association list -/

/-- Model of `Map.prototype.get`: the value stored under `key`, `none` for `undefined`. -/
def mapGet {α : Type} : List (String × α) → String → Option α
  | [], _ => none
  | (k, v) :: m, key => if k = key then some v else mapGet m key

/-- Model of `Map.prototype.has`. -/
def mapHas {α : Type} (m : List (String × α)) (key : String) : Bool :=
  (mapGet m key).isSome

/-- Model of `Map.prototype.set`: an existing key keeps its position and gets the new value,
a new key is appended. -/
def mapSet {α : Type} : List (String × α) → String → α → List (String × α)
  | [], key, v => [(key, v)]
  | (k, w) :: m, key, v => if k = key then (k, v) :: m else (k, w) :: mapSet m key v

/-- Model of `Map.prototype.delete`. -/
def mapDelete {α : Type} (m : List (String × α)) (key : String) : List (String × α) :=
  m.filter (fun kv => decide (kv.1 ≠ key))

/-! ## Data model -/

/-- The `emoteData` object literal of bot.js 244-248 / 288-292. -/
structure Emote where
  name : String
  id : Option String
  animated : Bool
deriving DecidableEq, Repr

/-- The `data` sub-object of an entry of the 7TV response. -/
structure RawData where
  name : Option String
  id : Option String
  animated : Option Bool
deriving DecidableEq, Repr

/-- One entry of the array returned by the 7TV API, before validation: every property
may be missing (`none` is `undefined`). -/
structure RawEmote where
  name : Option String
  id : Option String
  animated : Option Bool
  data : Option RawData
deriving DecidableEq, Repr

/-- The part of `config` the gate reads (bot.js 39-40); `none` is an absent property. -/
structure Config where
  responseChance : Option ℚ
  cooldownSeconds : Option ℚ

/-- The module-level variables of bot.js 44-50, plus the number of `Date.now()` and
`Math.random()` calls made so far. -/
structure State where
  channelEmotes : List (String × List Emote)
  channelEmotesExact : List (String × Emote)
  lastResponseTime : ℤ
  emoteUsage : List (String × Finset String)
  clockCalls : ℕ
  randomCalls : ℕ

/-- The environment: the value of the n-th `Date.now()` call (milliseconds) and of the
n-th `Math.random()` call. -/
structure World where
  clock : ℕ → ℤ
  random : ℕ → ℚ

/-- What `sendEmoteResponse` schedules: `client.say(CHANNEL, text)` after `delay` ms. -/
structure Response where
  text : String
  delay : ℤ
deriving DecidableEq

/-- The `tags` fields the message handler reads. -/
structure Tags where
  username : Option String
  displayName : Option String
deriving DecidableEq

/-! ## Configuration constants -/

/-- The constant `config.responseChance || 0.1` (bot.js 39): a missing or zero value gives `0.1`. -/
def RESPONSE_CHANCE (config : Config) : ℚ :=
  match config.responseChance with
  | some p => if p = 0 then 1 / 10 else p
  | none => 1 / 10

/-- The constant `config.cooldownSeconds || 30` (bot.js 40): a missing or zero value gives `30`. -/
def COOLDOWN_SECONDS (config : Config) : ℚ :=
  match config.cooldownSeconds with
  | some c => if c = 0 then 30 else c
  | none => 30

/-- Constant of bot.js 51. -/
def MIN_USERS_FOR_RESPONSE : ℕ := 3

/-! ## Truthiness of optional strings -/

/-- JavaScript truthiness of a value that is a string or `undefined`. -/
def truthy : Option String → Bool
  | some s => decide (s ≠ "")
  | none => false

/-- JavaScript `a || b` on values that are strings or `undefined`. -/
def orElse (a b : Option String) : Option String :=
  if truthy a then a else b

/-! ## Catalog rebuild (`fetch7TVEmotes`) -/

/-- The expression `emote.name || emote.data?.name` (bot.js 242, 286). -/
def emoteName (emote : RawEmote) : Option String :=
  orElse emote.name (emote.data.bind (fun d => d.name))

/-- The expression `emote.data?.animated || emote.animated || false` (bot.js 247, 291). -/
def emoteAnimated (emote : RawEmote) : Bool :=
  ((emote.data.bind (fun d => d.animated)).getD false) || (emote.animated.getD false)

/-- The `id` property of `emoteData`: `emote.id` in the direct method (bot.js 246),
`emote.id || emote.data?.id` in the emote-set method (bot.js 290). -/
def emoteId (direct : Bool) (emote : RawEmote) : Option String :=
  if direct then emote.id else orElse emote.id (emote.data.bind (fun d => d.id))

/-- The `emoteData` built from an entry, when `if (emoteName)` passes. -/
def toEmoteData (direct : Bool) (emote : RawEmote) : Option Emote :=
  match emoteName emote with
  | some n =>
    if n ≠ "" then
      some { name := n, id := emoteId direct emote, animated := emoteAnimated emote }
    else none
  | none => none

/-- Body of the `forEach` callback (bot.js 241-260, 285-304). -/
def storeEmote (lower : String → String) (s : State) (direct : Bool) (emote : RawEmote) :
    State :=
  match toEmoteData direct emote with
  | none => s
  | some emoteData =>
    let exact := mapSet s.channelEmotesExact emoteData.name emoteData
    let lowerName := lower emoteData.name
    let fold :=
      if mapHas s.channelEmotes lowerName then s.channelEmotes
      else mapSet s.channelEmotes lowerName []
    let fold := mapSet fold lowerName (((mapGet fold lowerName).getD []) ++ [emoteData])
    { s with channelEmotes := fold, channelEmotesExact := exact }

/-- The guarded rebuild of both indices (bot.js 238-263 with `direct = true`,
bot.js 282-307 with `direct = false`). The Boolean is the `return true`; `false` means
the block was skipped and `fetch7TVEmotes` goes on to report that no emotes were found. -/
def loadEmotes (lower : String → String) (s : State) (direct : Bool)
    (emotes : List RawEmote) : State × Bool :=
  if emotes.length > 0 then
    let cleared := { s with channelEmotes := [], channelEmotesExact := [] }
    (emotes.foldl (fun acc emote => storeEmote lower acc direct emote) cleared, true)
  else (s, false)

/-! ## Matcher (`detect7TVEmotes`) -/

/-- The characters matched by `\s` in a JavaScript regular expression. -/
def isWhitespace (c : Char) : Bool :=
  let n := c.toNat
  n = 0x09 || n = 0x0A || n = 0x0B || n = 0x0C || n = 0x0D || n = 0x20 || n = 0xA0 ||
  n = 0x1680 || (0x2000 ≤ n && n ≤ 0x200A) || n = 0x2028 || n = 0x2029 || n = 0x202F ||
  n = 0x205F || n = 0x3000 || n = 0xFEFF

/-- The character class of bot.js 349. -/
def isPunctuation (c : Char) : Bool :=
  c ∈ ['.', ',', '!', '?', ';', ':', '(', ')', '[', ']', '{', '}', '\'', '"']

/-- Splitting on `/\s+/`, on the list of characters. `afterSpace` tells that the previous
character was whitespace, so a further whitespace character extends the same separator.
As in JavaScript, a leading or trailing separator yields an empty first or last piece. -/
def splitAux : Bool → List Char → List (List Char)
  | _, [] => [[]]
  | afterSpace, c :: cs =>
    if isWhitespace c then
      if afterSpace then splitAux true cs else [] :: splitAux true cs
    else
      match splitAux false cs with
      | piece :: pieces => (c :: piece) :: pieces
      | [] => [[c]]

/-- The call `message.split(/\s+/)`. -/
def splitWhitespace (message : String) : List String :=
  (splitAux false message.data).map String.mk

/-- The call `word.replace(/[.,!?;:()\[\]{}'"]/g, '')`. -/
def cleanWord (word : String) : String :=
  String.mk (word.data.filter (fun c => !isPunctuation c))

/-- The element `matchingEmotes[0]`, `none` for `undefined`. -/
def firstEmote : List Emote → Option Emote
  | [] => none
  | e :: _ => some e

/-- The body of the `for (const word of words)` loop: what one word pushes onto
`foundEmotes` (`none`: nothing is pushed). -/
def resolveWord (lower : String → String) (s : State) (word : String) : Option Emote :=
  let cleanWord := cleanWord word
  if cleanWord = "" then none
  else if mapHas s.channelEmotesExact cleanWord then mapGet s.channelEmotesExact cleanWord
  else
    let lowerWord := lower cleanWord
    if mapHas s.channelEmotes lowerWord then
      let matchingEmotes := (mapGet s.channelEmotes lowerWord).getD []
      if matchingEmotes.length = 1 then firstEmote matchingEmotes
      else
        match matchingEmotes.find? (fun e => decide (e.name = cleanWord)) with
        | some exactMatch => some exactMatch
        | none => firstEmote matchingEmotes
    else none

/-- The `for` loop of bot.js 347-378 with its accumulator `foundEmotes`. -/
def detectLoop (lower : String → String) (s : State) :
    List String → List Emote → List Emote
  | [], foundEmotes => foundEmotes
  | word :: words, foundEmotes =>
    match resolveWord lower s word with
    | some emote => detectLoop lower s words (foundEmotes ++ [emote])
    | none => detectLoop lower s words foundEmotes

/-- The function `detect7TVEmotes(message)` (bot.js 342-381). -/
def detect7TVEmotes (lower : String → String) (s : State) (message : String) : List Emote :=
  detectLoop lower s (splitWhitespace message) []

/-! ## Response gate -/

/-- The function `shouldRespond()` (bot.js 386-397): reads the clock, and the random source only when
the cooldown has elapsed. Returns the decision and the state with the calls counted. -/
def shouldRespond (config : Config) (w : World) (s : State) : Bool × State :=
  let now := w.clock s.clockCalls
  let s := { s with clockCalls := s.clockCalls + 1 }
  let timeSinceLastResponse : ℚ := ((now - s.lastResponseTime : ℤ) : ℚ) / 1000
  if timeSinceLastResponse < COOLDOWN_SECONDS config then (false, s)
  else
    (decide (w.random s.randomCalls < RESPONSE_CHANCE config),
      { s with randomCalls := s.randomCalls + 1 })

/-- The function `sendEmoteResponse(emote, ...)` (bot.js 402-424), up to scheduling the send: stamps
`lastResponseTime` with a fresh clock reading and draws the delay. -/
def sendEmoteResponse (w : World) (s : State) (emote : Emote) : State × Response :=
  let delay : ℤ := Int.floor (w.random s.randomCalls * 1000) + 1000
  ({ s with
      lastResponseTime := w.clock s.clockCalls
      clockCalls := s.clockCalls + 1
      randomCalls := s.randomCalls + 1 },
   { text := emote.name, delay := delay })

/-- The `.catch` callback of bot.js 418-422: a failed send resets the cooldown. -/
def sendFailed (s : State) : State :=
  { s with lastResponseTime := 0 }

/-! ## Usage tracker and message handler -/

/-- Lines 442-447 of bot.js: create the set if needed and add the user. -/
def recordUsage (s : State) (emoteKey username : String) : State :=
  let usage :=
    if mapHas s.emoteUsage emoteKey then s.emoteUsage
    else mapSet s.emoteUsage emoteKey ∅
  let users := (mapGet usage emoteKey).getD ∅
  { s with emoteUsage := mapSet usage emoteKey (insert username users) }

/-- The value `emoteUsage.get(emoteKey).size`, `0` when there is no set. -/
def userCount (s : State) (emoteKey : String) : ℕ :=
  ((mapGet s.emoteUsage emoteKey).getD ∅).card

/-- The body of `if (shouldRespond()) { ... }` (bot.js 455-460): forget the users of the
emote, hand it to `sendEmoteResponse`, and `break`. -/
def respondWith (w : World) (s : State) (emoteKey : String) (emote : Emote) :
    State × List Response :=
  let s := { s with emoteUsage := mapDelete s.emoteUsage emoteKey }
  let sent := sendEmoteResponse w s emote
  (sent.1, [sent.2])

/-- The `for (const emote of foundEmotes)` loop of bot.js 438-463. The list of responses
is what the loop has handed to `sendEmoteResponse`; the `break` ends the recursion. -/
def trackEmotes (lower : String → String) (config : Config) (w : World)
    (username : String) : State → List Emote → State × List Response
  | s, [] => (s, [])
  | s, emote :: rest =>
    let emoteKey := lower emote.name
    let s := recordUsage s emoteKey username
    if userCount s emoteKey ≥ MIN_USERS_FOR_RESPONSE then
      let decision := shouldRespond config w s
      if decision.1 then respondWith w decision.2 emoteKey emote
      else trackEmotes lower config w username decision.2 rest
    else trackEmotes lower config w username s rest

/-- The expression `tags.username || tags['display-name'] || 'Unknown'` (bot.js 435). -/
def authorName (tags : Tags) : String :=
  match orElse (orElse tags.username tags.displayName) (some "Unknown") with
  | some u => u
  | none => "Unknown"

/-- The `client.on('message')` handler (bot.js 427-465). -/
def onMessage (lower : String → String) (config : Config) (w : World) (s : State)
    (tags : Tags) (message : String) (self : Bool) : State × List Response :=
  if self then (s, [])
  else
    let foundEmotes := detect7TVEmotes lower s message
    if foundEmotes.length > 0 then
      trackEmotes lower config w (authorName tags) s foundEmotes
    else (s, [])

/-! ## Events and runs -/

/-- What can happen to the engine: a chat message arrives, the `.catch` callback of a
scheduled send runs, or a catalog rebuild is applied to a fetched array. -/
inductive Event where
  | message (tags : Tags) (text : String) (self : Bool)
  | sendFailure
  | refresh (direct : Bool) (emotes : List RawEmote)

/-- One event, processed to completion. -/
def step (lower : String → String) (config : Config) (w : World) (s : State) :
    Event → State × List Response
  | Event.message tags text self => onMessage lower config w s tags text self
  | Event.sendFailure => (sendFailed s, [])
  | Event.refresh direct emotes => ((loadEmotes lower s direct emotes).1, [])

/-- Events processed one at a time in arrival order; the responses of all of them. -/
def run (lower : String → String) (config : Config) (w : World) :
    State → List Event → State × List Response
  | s, [] => (s, [])
  | s, ev :: evs =>
    let r := step lower config w s ev
    let rest := run lower config w r.1 evs
    (rest.1, r.2 ++ rest.2)

/-- The fires of a run, in order. A step that emits a response has made exactly two clock
readings last: the one of `shouldRespond` that decided the fire, then the one of
`sendEmoteResponse` that stamped `lastResponseTime`. Each fire is logged as the pair of
the decision reading and the stamp. -/
def fireLog (lower : String → String) (config : Config) (w : World) :
    State → List Event → List (ℤ × ℤ)
  | _, [] => []
  | s, ev :: evs =>
    let r := step lower config w s ev
    (if r.2 = [] then [] else [(w.clock (r.1.clockCalls - 2), r.1.lastResponseTime)]) ++
      fireLog lower config w r.1 evs

/-- True for the catch-callback event. -/
def Event.isSendFailure : Event → Bool
  | Event.sendFailure => true
  | _ => false

/-- What a run of the tracking loop does to the clock and to `lastResponseTime`: either no
response and the stamp is untouched, or one accepted gate call at reading `n` followed by
the stamp taken at reading `n + 1`. -/
def StepTiming (config : Config) (w : World) (s : State) (r : State × List Response) :
    Prop :=
  (r.2 = [] ∧ r.1.lastResponseTime = s.lastResponseTime ∧ s.clockCalls ≤ r.1.clockCalls) ∨
  (r.2 ≠ [] ∧ ∃ n, s.clockCalls ≤ n ∧ r.1.clockCalls = n + 2 ∧
    r.1.lastResponseTime = w.clock (n + 1) ∧
    ¬ (((w.clock n - s.lastResponseTime : ℤ) : ℚ) / 1000 < COOLDOWN_SECONDS config))

/-! ## Sample data for concrete runs -/

/-- Lower-casing of the ASCII letters, the instance of `lower` used on the sample data
(all of it ASCII, where it agrees with `toLowerCase`). -/
def asciiLower (word : String) : String :=
  String.mk (word.data.map Char.toLower)

/-- The state at start-up (bot.js 44-50). -/
def initialState : State :=
  { channelEmotes := [], channelEmotesExact := [], lastResponseTime := 0,
    emoteUsage := [], clockCalls := 0, randomCalls := 0 }

/-- A 7TV entry that carries only a name. -/
def namedEntry (name : String) : RawEmote :=
  { name := some name, id := none, animated := none, data := none }

/-- The tags of a message sent by `user`. -/
def tagsOf (user : String) : Tags :=
  { username := some user, displayName := none }

/-- A clock that advances 40 seconds between two readings, and a random source that
always returns `0.05`. -/
def sampleWorld : World :=
  { clock := fun n => 1700000000000 + 40000 * (n : ℤ), random := fun _ => 1 / 20 }

/-- Configuration with `responseChance = 1` and `cooldownSeconds = 30`. -/
def sampleConfig : Config :=
  { responseChance := some 1, cooldownSeconds := some 30 }

/-- The catalog is loaded with `KEKW`, then `a`, `b`, `c` send it, then `d`, `e`, `f`. -/
def sampleEvents : List Event :=
  [Event.refresh false [namedEntry "KEKW"],
   Event.message (tagsOf "a") "KEKW" false,
   Event.message (tagsOf "b") "KEKW" false,
   Event.message (tagsOf "c") "KEKW" false,
   Event.message (tagsOf "d") "KEKW" false,
   Event.message (tagsOf "e") "KEKW" false,
   Event.message (tagsOf "f") "KEKW" false]

/-- The event is not a chat message of anybody but `a` or `b`: a message event passes
when it is the bot's own or its author is `a` or `b`, any other event passes. -/
def Event.onlyFrom (a b : String) : Event → Bool
  | Event.message tags _ self =>
    self || decide (authorName tags = a) || decide (authorName tags = b)
  | _ => true

/-- The users recorded for `emoteKey`, none when the tracker has no entry. -/
def usersOf (s : State) (emoteKey : String) : Finset String :=
  (mapGet s.emoteUsage emoteKey).getD ∅

/-- The emotes a fetched array yields, in array order: one `emoteData` for every entry
that passes `if (emoteName)`. -/
def builtEmotes (direct : Bool) (emotes : List RawEmote) : List Emote :=
  emotes.filterMap (toEmoteData direct)

/-- Configuration with `responseChance = 0`. -/
def zeroChanceConfig : Config :=
  { responseChance := some 0, cooldownSeconds := some 30 }

/-- The sample state after the catalog is loaded with `KEKW` and `a`, `b` have sent it. -/
def twoUsersState : State :=
  (run asciiLower sampleConfig sampleWorld initialState
    [Event.refresh false [namedEntry "KEKW"],
     Event.message (tagsOf "a") "KEKW" false,
     Event.message (tagsOf "b") "KEKW" false]).1

/-- The emote is stored in the catalog: as a value of the exact-case index, or in one of
the arrays of the case-folded index. -/
def InCatalog (s : State) (e : Emote) : Prop :=
  (∃ k, mapGet s.channelEmotesExact k = some e) ∨
  (∃ k l, mapGet s.channelEmotes k = some l ∧ e ∈ l)

/-- The sample state after a first fetch has loaded `KEKW`. -/
def kekwState : State :=
  (loadEmotes asciiLower initialState false [namedEntry "KEKW"]).1

/-- A fetched entry without any property. -/
def namelessEntry : RawEmote :=
  { name := none, id := none, animated := none, data := none }

/-- The sample state after a fetch has loaded `PogU` and `pogu`, which share the
case-folded key `pogu`. -/
def poguState : State :=
  (loadEmotes asciiLower initialState false [namedEntry "PogU", namedEntry "pogu"]).1

/-- The sample state in which `a` has sent `PogU KEKW` and `b` has sent `KEKW`, with both
emotes in the catalog. -/
def mixedState : State :=
  (run asciiLower sampleConfig sampleWorld initialState
    [Event.refresh false [namedEntry "KEKW", namedEntry "PogU"],
     Event.message (tagsOf "a") "PogU KEKW" false,
     Event.message (tagsOf "b") "KEKW" false]).1

/-- Configuration with `responseChance = 0.01`, below the draw `0.05` of `sampleWorld`. -/
def lowChanceConfig : Config :=
  { responseChance := some (1 / 100), cooldownSeconds := some 30 }

/-- The state after a message that is not the bot's own has been handled. -/
def afterMessage (lower : String → String) (config : Config) (w : World) (s : State)
    (tags : Tags) (message : String) : State :=
  (onMessage lower config w s tags message false).1

/-- The sample start-up state after a fetch has loaded `KEKW` and `PogU`; nobody has used
an emote yet. -/
def pairState : State :=
  (loadEmotes asciiLower initialState false [namedEntry "KEKW", namedEntry "PogU"]).1

/-! # Theorems -/

/-! ## Basic facts about the association-list maps -/

theorem mapGet_mapSet_same {α : Type} (m : List (String × α)) (k : String) (v : α) :
    mapGet (mapSet m k v) k = some v := by
  induction m with
  | nil => simp [mapSet, mapGet]
  | cons kv m ih =>
    obtain ⟨k0, v0⟩ := kv
    by_cases h : k0 = k
    · simp [mapSet, mapGet, h]
    · simp [mapSet, mapGet, h, ih]

theorem mapGet_mapSet_ne {α : Type} (m : List (String × α)) (k k' : String) (v : α)
    (h : k' ≠ k) : mapGet (mapSet m k v) k' = mapGet m k' := by
  induction m with
  | nil => simp [mapSet, mapGet, Ne.symm h]
  | cons kv m ih =>
    obtain ⟨k0, v0⟩ := kv
    by_cases h0 : k0 = k
    · subst h0
      simp [mapSet, mapGet, Ne.symm h]
    · by_cases h1 : k0 = k'
      · subst h1
        simp [mapSet, mapGet, h0]
      · simp [mapSet, mapGet, h0, h1, ih]

theorem mapGet_mapDelete_same {α : Type} (m : List (String × α)) (k : String) :
    mapGet (mapDelete m k) k = none := by
  induction m with
  | nil => simp [mapDelete, mapGet]
  | cons kv m ih =>
    obtain ⟨k0, v0⟩ := kv
    by_cases h0 : k0 = k
    · simpa [mapDelete, h0] using ih
    · simpa [mapDelete, mapGet, h0] using ih

theorem mapGet_mapDelete_ne {α : Type} (m : List (String × α)) (k k' : String)
    (h : k' ≠ k) : mapGet (mapDelete m k) k' = mapGet m k' := by
  induction m with
  | nil => simp [mapDelete, mapGet]
  | cons kv m ih =>
    obtain ⟨k0, v0⟩ := kv
    by_cases h0 : k0 = k
    · subst h0
      simpa [mapDelete, mapGet, Ne.symm h] using ih
    · by_cases h1 : k0 = k'
      · subst h1
        simp [mapDelete, mapGet, h0]
      · simpa [mapDelete, mapGet, h0, h1] using ih

/-! ## Basic facts about the gate -/

theorem shouldRespond_true_iff (config : Config) (w : World) (s : State) :
    (shouldRespond config w s).1 = true ↔
      ¬ (((w.clock s.clockCalls - s.lastResponseTime : ℤ) : ℚ) / 1000 <
          COOLDOWN_SECONDS config) ∧
      w.random s.randomCalls < RESPONSE_CHANCE config := by
  unfold shouldRespond
  dsimp only
  split
  · rename_i h
    constructor
    · intro h1
      exact Bool.noConfusion h1
    · rintro ⟨h1, _⟩
      exact absurd h h1
  · rename_i h
    constructor
    · intro h1
      exact ⟨h, of_decide_eq_true h1⟩
    · rintro ⟨_, h2⟩
      exact decide_eq_true h2

theorem shouldRespond_lastResponseTime (config : Config) (w : World) (s : State) :
    (shouldRespond config w s).2.lastResponseTime = s.lastResponseTime := by
  unfold shouldRespond
  dsimp only
  split <;> rfl

theorem shouldRespond_clockCalls (config : Config) (w : World) (s : State) :
    (shouldRespond config w s).2.clockCalls = s.clockCalls + 1 := by
  unfold shouldRespond
  dsimp only
  split <;> rfl

theorem shouldRespond_emoteUsage (config : Config) (w : World) (s : State) :
    (shouldRespond config w s).2.emoteUsage = s.emoteUsage := by
  unfold shouldRespond
  dsimp only
  split <;> rfl

theorem shouldRespond_channelEmotes (config : Config) (w : World) (s : State) :
    (shouldRespond config w s).2.channelEmotes = s.channelEmotes ∧
      (shouldRespond config w s).2.channelEmotesExact = s.channelEmotesExact := by
  unfold shouldRespond
  dsimp only
  split <;> exact ⟨rfl, rfl⟩

/-- The cooldown test of `shouldRespond`, in integer milliseconds. -/
theorem cooldown_active_iff (now last : ℤ) (c : ℚ) :
    (((now - last : ℤ) : ℚ) / 1000 < c) ↔ ((now : ℚ) - last < c * 1000) := by
  rw [div_lt_iff₀ (by norm_num : (0 : ℚ) < 1000)]
  push_cast
  rfl

/-! ## The tracking loop, one iteration at a time -/

theorem recordUsage_fields (s : State) (emoteKey username : String) :
    (recordUsage s emoteKey username).lastResponseTime = s.lastResponseTime ∧
    (recordUsage s emoteKey username).clockCalls = s.clockCalls ∧
    (recordUsage s emoteKey username).randomCalls = s.randomCalls ∧
    (recordUsage s emoteKey username).channelEmotes = s.channelEmotes ∧
    (recordUsage s emoteKey username).channelEmotesExact = s.channelEmotesExact :=
  ⟨rfl, rfl, rfl, rfl, rfl⟩

/-- The iteration that ends in `break`: the gate accepted the emote. -/
theorem trackEmotes_fire (lower : String → String) (config : Config) (w : World)
    (username : String) (s : State) (emote : Emote) (rest : List Emote)
    (hcount : userCount (recordUsage s (lower emote.name) username) (lower emote.name) ≥
      MIN_USERS_FOR_RESPONSE)
    (hgate : (shouldRespond config w (recordUsage s (lower emote.name) username)).1 = true) :
    trackEmotes lower config w username s (emote :: rest) =
      respondWith w (shouldRespond config w (recordUsage s (lower emote.name) username)).2
        (lower emote.name) emote := by
  simp only [trackEmotes, hcount, hgate, if_true]

/-- The iteration in which the gate was asked and declined. -/
theorem trackEmotes_declined (lower : String → String) (config : Config) (w : World)
    (username : String) (s : State) (emote : Emote) (rest : List Emote)
    (hcount : userCount (recordUsage s (lower emote.name) username) (lower emote.name) ≥
      MIN_USERS_FOR_RESPONSE)
    (hgate : (shouldRespond config w (recordUsage s (lower emote.name) username)).1 = false) :
    trackEmotes lower config w username s (emote :: rest) =
      trackEmotes lower config w username
        (shouldRespond config w (recordUsage s (lower emote.name) username)).2 rest := by
  simp only [trackEmotes, hcount, hgate, if_true]
  rfl

/-- The iteration in which the emote is below the threshold: the gate is not asked. -/
theorem trackEmotes_below (lower : String → String) (config : Config) (w : World)
    (username : String) (s : State) (emote : Emote) (rest : List Emote)
    (hcount : ¬ userCount (recordUsage s (lower emote.name) username) (lower emote.name) ≥
      MIN_USERS_FOR_RESPONSE) :
    trackEmotes lower config w username s (emote :: rest) =
      trackEmotes lower config w username
        (recordUsage s (lower emote.name) username) rest := by
  simp only [trackEmotes, hcount, if_false]

/-! ## The catalog rebuild touches nothing but the two indices -/

theorem storeEmote_frame (lower : String → String) (s : State) (direct : Bool)
    (emote : RawEmote) :
    (storeEmote lower s direct emote).lastResponseTime = s.lastResponseTime ∧
    (storeEmote lower s direct emote).emoteUsage = s.emoteUsage ∧
    (storeEmote lower s direct emote).clockCalls = s.clockCalls ∧
    (storeEmote lower s direct emote).randomCalls = s.randomCalls := by
  unfold storeEmote
  split <;> exact ⟨rfl, rfl, rfl, rfl⟩

theorem foldl_storeEmote_frame (lower : String → String) (direct : Bool)
    (emotes : List RawEmote) (s : State) :
    (emotes.foldl (fun acc emote => storeEmote lower acc direct emote) s).lastResponseTime =
      s.lastResponseTime ∧
    (emotes.foldl (fun acc emote => storeEmote lower acc direct emote) s).emoteUsage =
      s.emoteUsage ∧
    (emotes.foldl (fun acc emote => storeEmote lower acc direct emote) s).clockCalls =
      s.clockCalls ∧
    (emotes.foldl (fun acc emote => storeEmote lower acc direct emote) s).randomCalls =
      s.randomCalls := by
  induction emotes generalizing s with
  | nil => exact ⟨rfl, rfl, rfl, rfl⟩
  | cons e es ih =>
    obtain ⟨h1, h2, h3, h4⟩ := ih (storeEmote lower s direct e)
    obtain ⟨g1, g2, g3, g4⟩ := storeEmote_frame lower s direct e
    simp only [List.foldl_cons]
    exact ⟨h1.trans g1, h2.trans g2, h3.trans g3, h4.trans g4⟩

theorem loadEmotes_frame (lower : String → String) (s : State) (direct : Bool)
    (emotes : List RawEmote) :
    (loadEmotes lower s direct emotes).1.lastResponseTime = s.lastResponseTime ∧
    (loadEmotes lower s direct emotes).1.emoteUsage = s.emoteUsage ∧
    (loadEmotes lower s direct emotes).1.clockCalls = s.clockCalls ∧
    (loadEmotes lower s direct emotes).1.randomCalls = s.randomCalls := by
  unfold loadEmotes
  split
  · exact foldl_storeEmote_frame lower direct emotes _
  · exact ⟨rfl, rfl, rfl, rfl⟩

/-! ## Clock readings of a step -/

theorem trackEmotes_timing (lower : String → String) (config : Config) (w : World)
    (username : String) (emotes : List Emote) (s : State) :
    StepTiming config w s (trackEmotes lower config w username s emotes) := by
  induction emotes generalizing s with
  | nil => exact Or.inl ⟨rfl, rfl, le_refl _⟩
  | cons e rest ih =>
    by_cases hcount : userCount (recordUsage s (lower e.name) username) (lower e.name) ≥
        MIN_USERS_FOR_RESPONSE
    · cases hgate : (shouldRespond config w (recordUsage s (lower e.name) username)).1
      · rw [trackEmotes_declined lower config w username s e rest hcount hgate]
        rcases ih (shouldRespond config w (recordUsage s (lower e.name) username)).2 with
          h | h
        · left
          obtain ⟨h1, h2, h3⟩ := h
          rw [shouldRespond_lastResponseTime] at h2
          rw [shouldRespond_clockCalls] at h3
          exact ⟨h1, h2, by
            have : (recordUsage s (lower e.name) username).clockCalls = s.clockCalls := rfl
            omega⟩
        · right
          obtain ⟨h1, n, h2, h3, h4, h5⟩ := h
          rw [shouldRespond_lastResponseTime] at h5
          rw [shouldRespond_clockCalls] at h2
          refine ⟨h1, n, ?_, h3, h4, h5⟩
          have : (recordUsage s (lower e.name) username).clockCalls = s.clockCalls := rfl
          omega
      · rw [trackEmotes_fire lower config w username s e rest hcount hgate]
        right
        refine ⟨by simp [respondWith], s.clockCalls, le_refl _, ?_, ?_, ?_⟩
        · simp only [respondWith, sendEmoteResponse, shouldRespond_clockCalls]
          rfl
        · simp only [respondWith, sendEmoteResponse, shouldRespond_clockCalls]
          rfl
        · exact ((shouldRespond_true_iff config w _).1 hgate).1
    · rw [trackEmotes_below lower config w username s e rest hcount]
      exact ih (recordUsage s (lower e.name) username)

theorem onMessage_timing (lower : String → String) (config : Config) (w : World)
    (s : State) (tags : Tags) (message : String) (self : Bool) :
    StepTiming config w s (onMessage lower config w s tags message self) := by
  unfold onMessage
  split
  · exact Or.inl ⟨rfl, rfl, le_refl _⟩
  · dsimp only
    split
    · exact trackEmotes_timing lower config w _ _ s
    · exact Or.inl ⟨rfl, rfl, le_refl _⟩

theorem step_timing (lower : String → String) (config : Config) (w : World)
    (s : State) (ev : Event) (hev : ev.isSendFailure = false) :
    StepTiming config w s (step lower config w s ev) := by
  cases ev with
  | message tags text self => exact onMessage_timing lower config w s tags text self
  | sendFailure => exact absurd hev (by decide)
  | refresh direct emotes =>
    obtain ⟨h1, _, h3, _⟩ := loadEmotes_frame lower s direct emotes
    exact Or.inl ⟨rfl, h1, le_of_eq h3.symm⟩

/-! ## Spacing of fires along a run -/

theorem fireLog_cons (lower : String → String) (config : Config) (w : World)
    (s : State) (ev : Event) (evs : List Event) :
    fireLog lower config w s (ev :: evs) =
      (if (step lower config w s ev).2 = [] then []
        else [(w.clock ((step lower config w s ev).1.clockCalls - 2),
                (step lower config w s ev).1.lastResponseTime)]) ++
        fireLog lower config w (step lower config w s ev).1 evs := rfl

/-- Once the stamp is not ahead of the readings still to come, every later fire is decided
at least the cooldown after any bound `L` below the stamp. -/
theorem fireLog_after (lower : String → String) (config : Config) (w : World)
    (hclock : Monotone w.clock) (evs : List Event)
    (hno : ∀ ev ∈ evs, ev.isSendFailure = false) (s : State) (L : ℤ)
    (hinv : ∀ n, s.clockCalls ≤ n → s.lastResponseTime ≤ w.clock n)
    (hL : L ≤ s.lastResponseTime) :
    ∀ a ∈ fireLog lower config w s evs,
      (L : ℚ) + COOLDOWN_SECONDS config * 1000 ≤ (a.1 : ℚ) := by
  induction evs generalizing s with
  | nil => intro a ha; simp [fireLog] at ha
  | cons ev evs ih =>
    have hev : ev.isSendFailure = false := hno ev (List.mem_cons_self _ _)
    have hrest : ∀ e ∈ evs, e.isSendFailure = false :=
      fun e he => hno e (List.mem_cons_of_mem _ he)
    intro a ha
    rw [fireLog_cons] at ha
    rcases step_timing lower config w s ev hev with ⟨h1, h2, h3⟩ | ⟨h1, n, h2, h3, h4, h5⟩
    · rw [if_pos h1, List.nil_append] at ha
      refine ih hrest _ ?_ ?_ a ha
      · intro m hm
        rw [h2]
        exact hinv m (le_trans h3 hm)
      · rw [h2]; exact hL
    · rw [if_neg h1, h3, h4] at ha
      rcases List.mem_append.1 ha with ha | ha
      · rw [List.mem_singleton] at ha
        subst ha
        have hn : n + 2 - 2 = n := by omega
        simp only [hn]
        rw [cooldown_active_iff, not_lt] at h5
        have hL' : (L : ℚ) ≤ (s.lastResponseTime : ℚ) := by exact_mod_cast hL
        linarith
      · refine ih hrest _ ?_ ?_ a ha
        · intro m hm
          rw [h4]
          exact hclock (by omega)
        · rw [h4]
          exact le_trans hL (hinv (n + 1) (by omega))

theorem fireLog_decision_le_stamp (lower : String → String) (config : Config) (w : World)
    (hclock : Monotone w.clock) (evs : List Event)
    (hno : ∀ ev ∈ evs, ev.isSendFailure = false) (s : State) :
    ∀ a ∈ fireLog lower config w s evs, a.1 ≤ a.2 := by
  induction evs generalizing s with
  | nil => intro a ha; simp [fireLog] at ha
  | cons ev evs ih =>
    have hev : ev.isSendFailure = false := hno ev (List.mem_cons_self _ _)
    have hrest : ∀ e ∈ evs, e.isSendFailure = false :=
      fun e he => hno e (List.mem_cons_of_mem _ he)
    intro a ha
    rw [fireLog_cons] at ha
    rcases step_timing lower config w s ev hev with ⟨h1, _, _⟩ | ⟨h1, n, _, h3, h4, _⟩
    · rw [if_pos h1, List.nil_append] at ha
      exact ih hrest _ a ha
    · rw [if_neg h1, h3, h4] at ha
      rcases List.mem_append.1 ha with ha | ha
      · rw [List.mem_singleton] at ha
        subst ha
        have hn : n + 2 - 2 = n := by omega
        simp only [hn]
        exact hclock (by omega)
      · exact ih hrest _ a ha

theorem fireLog_pairwise (lower : String → String) (config : Config) (w : World)
    (hclock : Monotone w.clock) (evs : List Event)
    (hno : ∀ ev ∈ evs, ev.isSendFailure = false) (s : State) :
    (fireLog lower config w s evs).Pairwise
      (fun a b => (a.2 : ℚ) + COOLDOWN_SECONDS config * 1000 ≤ (b.1 : ℚ)) := by
  induction evs generalizing s with
  | nil => simp [fireLog]
  | cons ev evs ih =>
    have hev : ev.isSendFailure = false := hno ev (List.mem_cons_self _ _)
    have hrest : ∀ e ∈ evs, e.isSendFailure = false :=
      fun e he => hno e (List.mem_cons_of_mem _ he)
    rw [fireLog_cons]
    rcases step_timing lower config w s ev hev with ⟨h1, _, _⟩ | ⟨h1, n, _, h3, h4, _⟩
    · rw [if_pos h1, List.nil_append]
      exact ih hrest _
    · rw [if_neg h1, List.singleton_append, List.pairwise_cons]
      refine ⟨?_, ih hrest _⟩
      intro b hb
      refine fireLog_after lower config w hclock evs hrest _ _ ?_ (le_refl _) b hb
      intro m hm
      rw [h4]
      exact hclock (by omega)

theorem sampleWorld_clock_monotone : Monotone sampleWorld.clock := by
  intro a b h
  have h' : (a : ℤ) ≤ (b : ℤ) := by exact_mod_cast h
  simp only [sampleWorld]
  omega

/-! ## C1: fires are at least the cooldown apart -/

/-- C1. Along every run of events processed in arrival order, with non-decreasing clock
readings and no send failure among the events, any two fires are at least
`COOLDOWN_SECONDS * 1000` ms apart, whichever emotes they are for: the later one is
decided no earlier than the stamp of the earlier one plus the cooldown, and each stamp is
no earlier than its own decision. The gate itself never accepts while
`now - lastResponseTime < COOLDOWN_SECONDS * 1000`, and `sendEmoteResponse` sets
`lastResponseTime` to the clock reading it takes, before anything is scheduled. -/
theorem fires_spaced_by_cooldown (lower : String → String) (config : Config) (w : World)
    (s : State) (evs : List Event) (hclock : Monotone w.clock)
    (hno : ∀ ev ∈ evs, ev.isSendFailure = false) :
    (fireLog lower config w s evs).Pairwise
        (fun a b => (a.2 : ℚ) + COOLDOWN_SECONDS config * 1000 ≤ (b.1 : ℚ)) ∧
      (∀ a ∈ fireLog lower config w s evs, a.1 ≤ a.2) ∧
      (∀ t : State,
        (w.clock t.clockCalls : ℚ) - t.lastResponseTime < COOLDOWN_SECONDS config * 1000 →
          (shouldRespond config w t).1 = false) ∧
      (∀ (t : State) (emote : Emote),
        (sendEmoteResponse w t emote).1.lastResponseTime = w.clock t.clockCalls) := by
  refine ⟨fireLog_pairwise lower config w hclock evs hno s,
    fireLog_decision_le_stamp lower config w hclock evs hno s, ?_, fun _ _ => rfl⟩
  intro t ht
  cases hd : (shouldRespond config w t).1
  · rfl
  · have h := ((shouldRespond_true_iff config w t).1 hd).1
    rw [cooldown_active_iff] at h
    exact absurd ht h

/-- C1 on the sample run: two fires, 80 seconds apart. -/
theorem fires_spaced_by_cooldown_witness :
    fireLog asciiLower sampleConfig sampleWorld initialState sampleEvents =
        [(1700000000000, 1700000040000), (1700000080000, 1700000120000)] ∧
      (fireLog asciiLower sampleConfig sampleWorld initialState sampleEvents).Pairwise
        (fun a b => (a.2 : ℚ) + COOLDOWN_SECONDS sampleConfig * 1000 ≤ (b.1 : ℚ)) :=
  ⟨by decide!,
    (fires_spaced_by_cooldown asciiLower sampleConfig sampleWorld initialState sampleEvents
      sampleWorld_clock_monotone (by decide)).1⟩

/-! ## The usage tracker -/

theorem usersOf_recordUsage (s : State) (emoteKey username key : String) :
    usersOf (recordUsage s emoteKey username) key =
      if key = emoteKey then insert username (usersOf s emoteKey) else usersOf s key := by
  unfold usersOf recordUsage
  dsimp only
  by_cases hk : key = emoteKey
  · subst hk
    rw [if_pos rfl, mapGet_mapSet_same]
    by_cases hhas : mapHas s.emoteUsage key = true
    · simp [hhas]
    · have hnone : mapGet s.emoteUsage key = none := by
        simpa [mapHas] using hhas
      simp [hhas, mapGet_mapSet_same, hnone]
  · rw [if_neg hk, mapGet_mapSet_ne _ _ _ _ hk]
    by_cases hhas : mapHas s.emoteUsage emoteKey = true
    · simp [hhas]
    · simp [hhas, mapGet_mapSet_ne _ _ _ _ hk]

theorem userCount_eq_card (s : State) (emoteKey : String) :
    userCount s emoteKey = (usersOf s emoteKey).card := rfl

/-- Either the loop ends without a response, or it breaks at the first emote `e` for which
the threshold is reached and the gate accepts: `pre` are the emotes processed before it
(without a response), `t` is the state in which the loop reaches `e`. -/
theorem trackEmotes_cases (lower : String → String) (config : Config) (w : World)
    (username : String) (emotes : List Emote) (s : State) :
    (trackEmotes lower config w username s emotes).2 = [] ∨
    ∃ (pre : List Emote) (e : Emote) (post : List Emote) (t : State),
      emotes = pre ++ e :: post ∧
      trackEmotes lower config w username s pre = (t, []) ∧
      userCount (recordUsage t (lower e.name) username) (lower e.name) ≥
        MIN_USERS_FOR_RESPONSE ∧
      (shouldRespond config w (recordUsage t (lower e.name) username)).1 = true ∧
      trackEmotes lower config w username s emotes =
        respondWith w (shouldRespond config w (recordUsage t (lower e.name) username)).2
          (lower e.name) e := by
  induction emotes generalizing s with
  | nil => exact Or.inl rfl
  | cons e0 rest ih =>
    by_cases hcount : userCount (recordUsage s (lower e0.name) username) (lower e0.name) ≥
        MIN_USERS_FOR_RESPONSE
    · cases hgate : (shouldRespond config w (recordUsage s (lower e0.name) username)).1
      · have hstep := trackEmotes_declined lower config w username s e0 rest hcount hgate
        rcases ih (shouldRespond config w (recordUsage s (lower e0.name) username)).2 with
          h | ⟨pre, e, post, t, h1, h2, h3, h4, h5⟩
        · left; rw [hstep]; exact h
        · right
          refine ⟨e0 :: pre, e, post, t, by rw [h1]; rfl, ?_, h3, h4, by rw [hstep]; exact h5⟩
          rw [trackEmotes_declined lower config w username s e0 pre hcount hgate]
          exact h2
      · right
        exact ⟨[], e0, rest, s, rfl, rfl, hcount, hgate,
          trackEmotes_fire lower config w username s e0 rest hcount hgate⟩
    · have hstep := trackEmotes_below lower config w username s e0 rest hcount
      rcases ih (recordUsage s (lower e0.name) username) with
        h | ⟨pre, e, post, t, h1, h2, h3, h4, h5⟩
      · left; rw [hstep]; exact h
      · right
        refine ⟨e0 :: pre, e, post, t, by rw [h1]; rfl, ?_, h3, h4, by rw [hstep]; exact h5⟩
        rw [trackEmotes_below lower config w username s e0 pre hcount]
        exact h2

/-! ## C2: no fire below three distinct users -/

theorem usersOf_congr (s t : State) (h : t.emoteUsage = s.emoteUsage) (key : String) :
    usersOf t key = usersOf s key := by
  unfold usersOf
  rw [h]

theorem card_pair_lt_min (a b : String) (users : Finset String)
    (h : users ⊆ {a, b}) : ¬ users.card ≥ MIN_USERS_FOR_RESPONSE := by
  have h1 : users.card ≤ ({a, b} : Finset String).card := Finset.card_le_card h
  have h2 : ({a, b} : Finset String).card ≤ 2 := Finset.card_le_two
  unfold MIN_USERS_FOR_RESPONSE
  omega

theorem trackEmotes_two_users (lower : String → String) (config : Config) (w : World)
    (username a b : String) (hu : username = a ∨ username = b) (emotes : List Emote)
    (s : State) (hinv : ∀ key, usersOf s key ⊆ {a, b}) :
    (trackEmotes lower config w username s emotes).2 = [] ∧
      ∀ key, usersOf (trackEmotes lower config w username s emotes).1 key ⊆ {a, b} := by
  induction emotes generalizing s with
  | nil => exact ⟨rfl, hinv⟩
  | cons e rest ih =>
    have hinv1 : ∀ key, usersOf (recordUsage s (lower e.name) username) key ⊆ {a, b} := by
      intro key
      rw [usersOf_recordUsage]
      split
      · apply Finset.insert_subset
        · rcases hu with h | h <;> simp [h]
        · exact hinv _
      · exact hinv _
    have hcount : ¬ userCount (recordUsage s (lower e.name) username) (lower e.name) ≥
        MIN_USERS_FOR_RESPONSE := by
      rw [userCount_eq_card]
      exact card_pair_lt_min a b _ (hinv1 _)
    rw [trackEmotes_below lower config w username s e rest hcount]
    exact ih _ hinv1

theorem step_two_users (lower : String → String) (config : Config) (w : World)
    (a b : String) (s : State) (ev : Event) (hev : ev.onlyFrom a b = true)
    (hinv : ∀ key, usersOf s key ⊆ {a, b}) :
    (step lower config w s ev).2 = [] ∧
      ∀ key, usersOf (step lower config w s ev).1 key ⊆ {a, b} := by
  cases ev with
  | message tags text self =>
    cases self with
    | true => exact ⟨rfl, hinv⟩
    | false =>
      have hu : authorName tags = a ∨ authorName tags = b := by
        simpa [Event.onlyFrom] using hev
      simp only [step, onMessage, Bool.false_eq_true, if_false]
      split
      · exact trackEmotes_two_users lower config w _ a b hu _ s hinv
      · exact ⟨rfl, hinv⟩
  | sendFailure => exact ⟨rfl, hinv⟩
  | refresh direct emotes =>
    refine ⟨rfl, fun key => ?_⟩
    rw [show (step lower config w s (Event.refresh direct emotes)).1 =
      (loadEmotes lower s direct emotes).1 from rfl,
      usersOf_congr s _ (loadEmotes_frame lower s direct emotes).2.1]
    exact hinv key

theorem run_two_users (lower : String → String) (config : Config) (w : World)
    (a b : String) (evs : List Event) (hevs : ∀ ev ∈ evs, ev.onlyFrom a b = true)
    (s : State) (hinv : ∀ key, usersOf s key ⊆ {a, b}) :
    (run lower config w s evs).2 = [] := by
  induction evs generalizing s with
  | nil => rfl
  | cons ev evs ih =>
    obtain ⟨h1, h2⟩ := step_two_users lower config w a b s ev
      (hevs ev (List.mem_cons_self _ _)) hinv
    have h3 := ih (fun e he => hevs e (List.mem_cons_of_mem _ he)) _ h2
    simp only [run, h1, h3, List.append_nil]

/-- C2. Whatever the state, the clock and the random draws, a response to a non-self
message is for an emote `e` of the match list such that, in the state `t` in which the
loop reaches `e` and after the author has been recorded, the usage set of the case-folded
key of `e` holds at least 3 distinct user names. Consequently a run that starts with an
empty tracker and in which every chat message is from one of two users `a`, `b` emits no
response at all. -/
theorem fire_needs_three_users (lower : String → String) (config : Config) (w : World) :
    (∀ (s : State) (tags : Tags) (message : String) (response : Response),
      response ∈ (onMessage lower config w s tags message false).2 →
      ∃ (pre : List Emote) (e : Emote) (post : List Emote) (t : State),
        detect7TVEmotes lower s message = pre ++ e :: post ∧
        trackEmotes lower config w (authorName tags) s pre = (t, []) ∧
        response.text = e.name ∧
        3 ≤ (usersOf (recordUsage t (lower e.name) (authorName tags)) (lower e.name)).card) ∧
    (∀ (s : State) (evs : List Event) (a b : String),
      s.emoteUsage = [] → (∀ ev ∈ evs, ev.onlyFrom a b = true) →
      (run lower config w s evs).2 = []) := by
  constructor
  · intro s tags message response hmem
    simp only [onMessage, Bool.false_eq_true, if_false] at hmem
    split at hmem
    · rcases trackEmotes_cases lower config w (authorName tags)
        (detect7TVEmotes lower s message) s with h | ⟨pre, e, post, t, h1, h2, h3, h4, h5⟩
      · rw [h] at hmem
        exact absurd hmem (List.not_mem_nil _)
      · refine ⟨pre, e, post, t, h1, h2, ?_, h3⟩
        rw [h5] at hmem
        simp only [respondWith, sendEmoteResponse, List.mem_singleton] at hmem
        rw [hmem]
    · exact absurd hmem (List.not_mem_nil _)
  · intro s evs a b hs hevs
    refine run_two_users lower config w a b evs hevs s ?_
    intro key
    simp [usersOf, hs, mapGet]

/-- C2 on sample data: `a` and `b` each send `KEKW` and nothing is emitted, although the
gate would accept (chance 1, cooldown long elapsed). -/
theorem fire_needs_three_users_witness :
    (initialState.emoteUsage = [] ∧
      (run asciiLower sampleConfig sampleWorld initialState
        [Event.refresh false [namedEntry "KEKW"],
         Event.message (tagsOf "a") "KEKW" false,
         Event.message (tagsOf "b") "KEKW" false]).2 = []) ∧
    ((onMessage asciiLower sampleConfig sampleWorld twoUsersState (tagsOf "c") "KEKW"
        false).2 = [{ text := "KEKW", delay := 1050 }] ∧
      ∃ (pre : List Emote) (e : Emote) (post : List Emote) (t : State),
        detect7TVEmotes asciiLower twoUsersState "KEKW" = pre ++ e :: post ∧
        trackEmotes asciiLower sampleConfig sampleWorld (authorName (tagsOf "c"))
          twoUsersState pre = (t, []) ∧
        "KEKW" = e.name ∧
        3 ≤ (usersOf (recordUsage t (asciiLower e.name) (authorName (tagsOf "c")))
          (asciiLower e.name)).card) :=
  ⟨⟨rfl, (fire_needs_three_users asciiLower sampleConfig sampleWorld).2 initialState _
      "a" "b" rfl (by decide)⟩,
    by decide!,
    (fire_needs_three_users asciiLower sampleConfig sampleWorld).1 twoUsersState
      (tagsOf "c") "KEKW" { text := "KEKW", delay := 1050 } (by decide!)⟩

/-! ## C3: the configured chance -/

/-- For a configured chance other than `0`, a trigger whose cooldown has elapsed is
accepted exactly when the draw is below the configured value. -/
theorem shouldRespond_iff_draw_lt (config : Config) (w : World) (s : State) (p : ℚ)
    (hp : config.responseChance = some p) (hp0 : p ≠ 0)
    (hcool : ¬ (((w.clock s.clockCalls - s.lastResponseTime : ℤ) : ℚ) / 1000 <
      COOLDOWN_SECONDS config)) :
    (shouldRespond config w s).1 = true ↔ w.random s.randomCalls < p := by
  rw [shouldRespond_true_iff]
  have hchance : RESPONSE_CHANCE config = p := by
    simp [RESPONSE_CHANCE, hp, hp0]
  rw [hchance]
  exact ⟨fun h => h.2, fun h => ⟨hcool, h⟩⟩

/-- C3, at the failing input. With `responseChance` configured as `0` the constant
`RESPONSE_CHANCE` is `0.1`, so the gate accepts the draw `0.05` once the cooldown has
elapsed, and the third of three users sending `KEKW` gets a response. -/
theorem zero_chance_still_fires :
    RESPONSE_CHANCE zeroChanceConfig = 1 / 10 ∧
      (shouldRespond zeroChanceConfig sampleWorld initialState).1 = true ∧
      (run asciiLower zeroChanceConfig sampleWorld initialState
        [Event.refresh false [namedEntry "KEKW"],
         Event.message (tagsOf "a") "KEKW" false,
         Event.message (tagsOf "b") "KEKW" false,
         Event.message (tagsOf "c") "KEKW" false]).2 = [{ text := "KEKW", delay := 1050 }] := by
  refine ⟨by decide!, by decide!, by decide!⟩

/-! ## The catalog after a rebuild -/

theorem storeEmote_skip (lower : String → String) (s : State) (direct : Bool)
    (emote : RawEmote) (h : toEmoteData direct emote = none) :
    storeEmote lower s direct emote = s := by
  unfold storeEmote
  rw [h]

theorem storeEmote_exact (lower : String → String) (s : State) (direct : Bool)
    (emote : RawEmote) (e : Emote) (h : toEmoteData direct emote = some e) (n : String) :
    mapGet (storeEmote lower s direct emote).channelEmotesExact n =
      if n = e.name then some e else mapGet s.channelEmotesExact n := by
  unfold storeEmote
  rw [h]
  dsimp only
  by_cases hn : n = e.name
  · subst hn
    rw [if_pos rfl, mapGet_mapSet_same]
  · rw [if_neg hn, mapGet_mapSet_ne _ _ _ _ hn]

theorem storeEmote_fold (lower : String → String) (s : State) (direct : Bool)
    (emote : RawEmote) (e : Emote) (h : toEmoteData direct emote = some e) (k : String) :
    mapGet (storeEmote lower s direct emote).channelEmotes k =
      if k = lower e.name then some ((mapGet s.channelEmotes k).getD [] ++ [e])
      else mapGet s.channelEmotes k := by
  unfold storeEmote
  rw [h]
  dsimp only
  by_cases hk : k = lower e.name
  · subst hk
    rw [if_pos rfl, mapGet_mapSet_same]
    by_cases hhas : mapHas s.channelEmotes (lower e.name) = true
    · simp [hhas]
    · have hnone : mapGet s.channelEmotes (lower e.name) = none := by
        simpa [mapHas] using hhas
      simp [hhas, mapGet_mapSet_same, hnone]
  · rw [if_neg hk, mapGet_mapSet_ne _ _ _ _ hk]
    by_cases hhas : mapHas s.channelEmotes (lower e.name) = true
    · simp [hhas]
    · simp [hhas, mapGet_mapSet_ne _ _ _ _ hk]

/-- Both indices after the `forEach` over `emotes`, started from empty indices. -/
theorem foldl_storeEmote_lookup (lower : String → String) (direct : Bool) (s : State)
    (emotes : List RawEmote) :
    (∀ n, mapGet (emotes.foldl (fun acc emote => storeEmote lower acc direct emote)
        { s with channelEmotes := [], channelEmotesExact := [] }).channelEmotesExact n =
      ((builtEmotes direct emotes).filter (fun e => decide (e.name = n))).getLast?) ∧
    (∀ k, mapGet (emotes.foldl (fun acc emote => storeEmote lower acc direct emote)
        { s with channelEmotes := [], channelEmotesExact := [] }).channelEmotes k =
      if (builtEmotes direct emotes).filter (fun e => decide (lower e.name = k)) = [] then none
      else some ((builtEmotes direct emotes).filter (fun e => decide (lower e.name = k)))) := by
  induction emotes using List.reverseRecOn with
  | nil => exact ⟨fun n => rfl, fun k => rfl⟩
  | append_singleton rs r ih =>
    obtain ⟨ihx, ihf⟩ := ih
    rw [List.foldl_append]
    simp only [List.foldl_cons, List.foldl_nil]
    cases hr : toEmoteData direct r with
    | none =>
      have hb : builtEmotes direct (rs ++ [r]) = builtEmotes direct rs := by
        simp [builtEmotes, List.filterMap_append, hr]
      rw [storeEmote_skip lower _ direct r hr, hb]
      exact ⟨ihx, ihf⟩
    | some e =>
      have hb : builtEmotes direct (rs ++ [r]) = builtEmotes direct rs ++ [e] := by
        simp [builtEmotes, List.filterMap_append, hr]
      rw [hb]
      constructor
      · intro n
        rw [storeEmote_exact lower _ direct r e hr, ihx n, List.filter_append]
        by_cases hn : n = e.name
        · subst hn
          simp
        · have hn' : ¬ e.name = n := fun h => hn h.symm
          simp [hn, hn']
      · intro k
        rw [storeEmote_fold lower _ direct r e hr, ihf k, List.filter_append]
        by_cases hk : k = lower e.name
        · subst hk
          by_cases hnil : (builtEmotes direct rs).filter
              (fun e' => decide (lower e'.name = lower e.name)) = []
          · simp [hnil]
          · simp [hnil]
        · have hk' : ¬ lower e.name = k := fun h => hk h.symm
          simp [hk, hk']

theorem toEmoteData_name_ne (direct : Bool) (r : RawEmote) (e : Emote)
    (h : toEmoteData direct r = some e) : e.name ≠ "" := by
  unfold toEmoteData at h
  split at h
  · split at h
    · rename_i n _ hn
      cases h
      exact hn
    · cases h
  · cases h

theorem mem_builtEmotes (direct : Bool) (emotes : List RawEmote) (e : Emote) :
    e ∈ builtEmotes direct emotes ↔ ∃ r ∈ emotes, toEmoteData direct r = some e := by
  simp [builtEmotes, List.mem_filterMap]

theorem loadEmotes_of_ne_nil (lower : String → String) (s : State) (direct : Bool)
    (emotes : List RawEmote) (hne : emotes ≠ []) :
    loadEmotes lower s direct emotes =
      (emotes.foldl (fun acc emote => storeEmote lower acc direct emote)
        { s with channelEmotes := [], channelEmotesExact := [] }, true) := by
  unfold loadEmotes
  have hlen : emotes.length > 0 := List.length_pos.2 hne
  simp only [hlen, if_true]

/-- Both indices after a rebuild from a non-empty list. -/
theorem loadEmotes_lookup (lower : String → String) (s : State) (direct : Bool)
    (emotes : List RawEmote) (hne : emotes ≠ []) :
    (∀ n, mapGet (loadEmotes lower s direct emotes).1.channelEmotesExact n =
      ((builtEmotes direct emotes).filter (fun e => decide (e.name = n))).getLast?) ∧
    (∀ k, mapGet (loadEmotes lower s direct emotes).1.channelEmotes k =
      if (builtEmotes direct emotes).filter (fun e => decide (lower e.name = k)) = [] then none
      else some ((builtEmotes direct emotes).filter (fun e => decide (lower e.name = k)))) := by
  rw [loadEmotes_of_ne_nil lower s direct emotes hne]
  exact foldl_storeEmote_lookup lower direct s emotes

/-! ## C5: a refresh with a non-empty list replaces the catalog -/

/-- C5. For every previous state and every non-empty fetched list, the rebuild succeeds
and both indices hold exactly the emotes built from the list (`builtEmotes`: one per entry
from which the code reads a name, that is a non-empty string), whatever the previous
catalog was. Exact lookup of `n` returns the last built emote named `n`, and finds one iff
some entry of the list yields an emote named `n`; fold lookup of `k` returns the built
emotes whose lower-cased name is `k`, in list order, and the key is absent when there is
none. -/
theorem refresh_replaces_catalog (lower : String → String) (s : State) (direct : Bool)
    (emotes : List RawEmote) (hne : emotes ≠ []) :
    (loadEmotes lower s direct emotes).2 = true ∧
    (∀ n, mapGet (loadEmotes lower s direct emotes).1.channelEmotesExact n =
      ((builtEmotes direct emotes).filter (fun e => decide (e.name = n))).getLast?) ∧
    (∀ n, mapHas (loadEmotes lower s direct emotes).1.channelEmotesExact n = true ↔
      ∃ r ∈ emotes, ∃ e, toEmoteData direct r = some e ∧ e.name = n) ∧
    (∀ k, (mapGet (loadEmotes lower s direct emotes).1.channelEmotes k).getD [] =
      (builtEmotes direct emotes).filter (fun e => decide (lower e.name = k))) ∧
    (∀ k, mapHas (loadEmotes lower s direct emotes).1.channelEmotes k = true ↔
      ∃ e ∈ builtEmotes direct emotes, lower e.name = k) := by
  obtain ⟨hx, hf⟩ := loadEmotes_lookup lower s direct emotes hne
  refine ⟨by rw [loadEmotes_of_ne_nil lower s direct emotes hne], hx, ?_, ?_, ?_⟩
  · intro n
    unfold mapHas
    rw [hx n, List.getLast?_isSome]
    constructor
    · intro h
      obtain ⟨e, he⟩ := List.exists_mem_of_ne_nil _ h
      rw [List.mem_filter] at he
      obtain ⟨r, hr, hre⟩ := (mem_builtEmotes direct emotes e).1 he.1
      exact ⟨r, hr, e, hre, of_decide_eq_true he.2⟩
    · rintro ⟨r, hr, e, hre, hn⟩
      apply List.ne_nil_of_mem (a := e)
      rw [List.mem_filter]
      exact ⟨(mem_builtEmotes direct emotes e).2 ⟨r, hr, hre⟩, decide_eq_true hn⟩
  · intro k
    rw [hf k]
    split
    · rename_i h
      rw [h]
      rfl
    · rfl
  · intro k
    unfold mapHas
    rw [hf k]
    constructor
    · intro h
      split at h
      · cases h
      · rename_i hnil
        obtain ⟨e, he⟩ := List.exists_mem_of_ne_nil _ hnil
        rw [List.mem_filter] at he
        exact ⟨e, he.1, of_decide_eq_true he.2⟩
    · rintro ⟨e, he, hk⟩
      have hnil : (builtEmotes direct emotes).filter (fun e => decide (lower e.name = k)) ≠
          [] := by
        apply List.ne_nil_of_mem (a := e)
        rw [List.mem_filter]
        exact ⟨he, decide_eq_true hk⟩
      rw [if_neg hnil]
      rfl

/-- C5 on sample data: a catalog holding `KEKW` is refreshed with `PogU`, `pogu`, a
nameless entry and `PogU` again. -/
theorem refresh_replaces_catalog_witness :
    ([namedEntry "PogU", namedEntry "pogu", namelessEntry,
        { namedEntry "PogU" with id := some "2" }] ≠ []) ∧
    mapGet (loadEmotes asciiLower kekwState false
        [namedEntry "PogU", namedEntry "pogu", namelessEntry,
          { namedEntry "PogU" with id := some "2" }]).1.channelEmotesExact "PogU" =
      some { name := "PogU", id := some "2", animated := false } ∧
    mapGet (loadEmotes asciiLower kekwState false
        [namedEntry "PogU", namedEntry "pogu", namelessEntry,
          { namedEntry "PogU" with id := some "2" }]).1.channelEmotesExact "KEKW" = none ∧
    (mapGet (loadEmotes asciiLower kekwState false
        [namedEntry "PogU", namedEntry "pogu", namelessEntry,
          { namedEntry "PogU" with id := some "2" }]).1.channelEmotes "pogu").getD [] =
      [{ name := "PogU", id := none, animated := false },
       { name := "pogu", id := none, animated := false },
       { name := "PogU", id := some "2", animated := false }] := by
  have h := refresh_replaces_catalog asciiLower kekwState false
    [namedEntry "PogU", namedEntry "pogu", namelessEntry,
      { namedEntry "PogU" with id := some "2" }] (by decide)
  refine ⟨by decide, ?_, ?_, ?_⟩
  · rw [h.2.1]; decide
  · rw [h.2.1]; decide
  · rw [h.2.2.2.1]; decide

/-! ## C6: a refresh that yields no emote -/

/-- An empty fetched list leaves the state as it was. -/
theorem loadEmotes_nil (lower : String → String) (s : State) (direct : Bool) :
    loadEmotes lower s direct [] = (s, false) := rfl

/-- A non-empty fetched list none of whose entries yields an emote empties both indices. -/
theorem loadEmotes_nameless (lower : String → String) (s : State) (direct : Bool)
    (emotes : List RawEmote) (hne : emotes ≠ []) (hnone : builtEmotes direct emotes = []) :
    (loadEmotes lower s direct emotes).2 = true ∧
    (∀ n, mapGet (loadEmotes lower s direct emotes).1.channelEmotesExact n = none) ∧
    (∀ k, mapGet (loadEmotes lower s direct emotes).1.channelEmotes k = none) := by
  obtain ⟨hx, hf⟩ := foldl_storeEmote_lookup lower direct s emotes
  rw [loadEmotes_of_ne_nil lower s direct emotes hne]
  refine ⟨rfl, fun n => ?_, fun k => ?_⟩
  · rw [hx n, hnone]; rfl
  · rw [hf k, hnone]; rfl

/-- C6, at the failing input. The catalog holds `KEKW`; a rebuild from a one-entry array
whose entry has no name reports success and leaves both indices empty, so `KEKW` is no
longer matched. Through either block (direct or emote-set) the result is the same. -/
theorem nameless_refresh_clears_catalog :
    kekwState.channelEmotesExact =
        [("KEKW", { name := "KEKW", id := none, animated := false })] ∧
      detect7TVEmotes asciiLower kekwState "KEKW" =
        [{ name := "KEKW", id := none, animated := false }] ∧
      (loadEmotes asciiLower kekwState false [namelessEntry]).2 = true ∧
      (loadEmotes asciiLower kekwState false [namelessEntry]).1.channelEmotesExact = [] ∧
      (loadEmotes asciiLower kekwState false [namelessEntry]).1.channelEmotes = [] ∧
      (loadEmotes asciiLower kekwState true [namelessEntry]).1.channelEmotesExact = [] ∧
      (loadEmotes asciiLower kekwState true [namelessEntry]).1.channelEmotes = [] ∧
      detect7TVEmotes asciiLower (loadEmotes asciiLower kekwState false [namelessEntry]).1
        "KEKW" = [] := by
  decide

/-! ## C4: the exact-case match wins -/

theorem splitAux_no_whitespace (cs : List Char)
    (h : ∀ c ∈ cs, isWhitespace c = false) : splitAux false cs = [cs] := by
  induction cs with
  | nil => rfl
  | cons c cs ih =>
    have hc : isWhitespace c = false := h c (List.mem_cons_self _ _)
    have hcs := ih (fun d hd => h d (List.mem_cons_of_mem _ hd))
    simp [splitAux, hc, hcs]

theorem detect_single_word (lower : String → String) (s : State) (word : String)
    (h : ∀ c ∈ word.data, isWhitespace c = false) :
    detect7TVEmotes lower s word = (resolveWord lower s word).toList := by
  unfold detect7TVEmotes splitWhitespace
  rw [splitAux_no_whitespace word.data h]
  simp only [List.map_cons, List.map_nil, detectLoop]
  cases resolveWord lower s word <;> rfl

/-- An emote stored in a rebuilt catalog is one of the emotes built from the list. -/
theorem inCatalog_built (lower : String → String) (s : State) (direct : Bool)
    (emotes : List RawEmote) (hne : emotes ≠ []) (e : Emote)
    (h : InCatalog (loadEmotes lower s direct emotes).1 e) :
    e ∈ builtEmotes direct emotes := by
  obtain ⟨hx, hf⟩ := loadEmotes_lookup lower s direct emotes hne
  rcases h with ⟨k, hk⟩ | ⟨k, l, hk, hl⟩
  · rw [hx k] at hk
    exact (List.mem_filter.1 (List.mem_of_getLast?_eq_some hk)).1
  · rw [hf k] at hk
    split at hk
    · cases hk
    · cases hk
      exact (List.mem_filter.1 hl).1

/-- C4. In a catalog built by a refresh (from any previous state and any non-empty list),
a word whose cleaned form is the name of an emote stored in the catalog is resolved to an
emote whose name is exactly the cleaned word, whatever other emotes share its lower-case
key; when the word is a whole message without whitespace, that emote is the match list. -/
theorem exact_case_match_wins (lower : String → String) (s : State) (direct : Bool)
    (emotes : List RawEmote) (hne : emotes ≠ []) (word : String) (e : Emote)
    (hcat : InCatalog (loadEmotes lower s direct emotes).1 e)
    (hword : cleanWord word = e.name) :
    ∃ found : Emote,
      resolveWord lower (loadEmotes lower s direct emotes).1 word = some found ∧
      found.name = cleanWord word ∧
      ((∀ c ∈ word.data, isWhitespace c = false) →
        detect7TVEmotes lower (loadEmotes lower s direct emotes).1 word = [found]) := by
  have hbuilt := inCatalog_built lower s direct emotes hne e hcat
  obtain ⟨r, _, hr⟩ := (mem_builtEmotes direct emotes e).1 hbuilt
  have hname : e.name ≠ "" := toEmoteData_name_ne direct r e hr
  obtain ⟨hx, _⟩ := loadEmotes_lookup lower s direct emotes hne
  have hnil : (builtEmotes direct emotes).filter (fun e' => decide (e'.name = e.name)) ≠
      [] := by
    apply List.ne_nil_of_mem (a := e)
    rw [List.mem_filter]
    exact ⟨hbuilt, decide_eq_true rfl⟩
  obtain ⟨found, hfound⟩ := Option.isSome_iff_exists.1 (List.getLast?_isSome.2 hnil)
  have hfname : found.name = e.name :=
    of_decide_eq_true (List.mem_filter.1 (List.mem_of_getLast?_eq_some hfound)).2
  have hget : mapGet (loadEmotes lower s direct emotes).1.channelEmotesExact e.name =
      some found := by
    rw [hx e.name, hfound]
  have hres : resolveWord lower (loadEmotes lower s direct emotes).1 word = some found := by
    unfold resolveWord
    simp only [hword, hname, if_false, mapHas, hget, Option.isSome_some, if_true]
  refine ⟨found, hres, by rw [hword, hfname], fun hws => ?_⟩
  rw [detect_single_word lower _ word hws, hres]
  rfl

/-- C4 on the sample catalog with `PogU` and `pogu`: the token `PogU,` resolves to `PogU`
and the token `pogu!` to `pogu`. -/
theorem exact_case_match_wins_witness :
    (∃ found : Emote,
      resolveWord asciiLower poguState "PogU," = some found ∧
      found.name = cleanWord "PogU," ∧
      ((∀ c ∈ "PogU,".data, isWhitespace c = false) →
        detect7TVEmotes asciiLower poguState "PogU," = [found])) ∧
    (detect7TVEmotes asciiLower poguState "PogU,").map (fun e => e.name) = ["PogU"] ∧
    (detect7TVEmotes asciiLower poguState "pogu!").map (fun e => e.name) = ["pogu"] ∧
    (detect7TVEmotes asciiLower poguState "POGU").map (fun e => e.name) = ["PogU"] :=
  ⟨exact_case_match_wins asciiLower initialState false
      [namedEntry "PogU", namedEntry "pogu"] (by decide) "PogU,"
      { name := "PogU", id := none, animated := false }
      (Or.inl ⟨"PogU", by decide⟩) (by decide),
    by decide, by decide, by decide⟩

/-! ## C7: a fire resets the usage of its own key only -/

theorem respondWith_usage (w : World) (s : State) (emoteKey : String) (emote : Emote) :
    (respondWith w s emoteKey emote).1.emoteUsage = mapDelete s.emoteUsage emoteKey := rfl

/-- C7. When the handler fires, it is for an emote `e` of the match list, reached by the
loop in a state `t`. Right after the fire the tracker has no entry (hence no users) for
the case-folded key of `e`, and under every other key it holds exactly what it held when
the gate was asked, that is in `t` with the author recorded for `e`. -/
theorem fire_resets_only_its_key (lower : String → String) (config : Config) (w : World)
    (s : State) (tags : Tags) (message : String) (self : Bool)
    (hfire : (onMessage lower config w s tags message self).2 ≠ []) :
    ∃ (pre : List Emote) (e : Emote) (post : List Emote) (t : State),
      detect7TVEmotes lower s message = pre ++ e :: post ∧
      trackEmotes lower config w (authorName tags) s pre = (t, []) ∧
      (shouldRespond config w (recordUsage t (lower e.name) (authorName tags))).1 = true ∧
      ((onMessage lower config w s tags message self).2.map (fun r => r.text)) = [e.name] ∧
      mapGet (onMessage lower config w s tags message self).1.emoteUsage (lower e.name) =
        none ∧
      usersOf (onMessage lower config w s tags message self).1 (lower e.name) = ∅ ∧
      ∀ key, key ≠ lower e.name →
        mapGet (onMessage lower config w s tags message self).1.emoteUsage key =
          mapGet (recordUsage t (lower e.name) (authorName tags)).emoteUsage key := by
  unfold onMessage at hfire ⊢
  cases self with
  | true => exact absurd rfl hfire
  | false =>
    simp only [Bool.false_eq_true, if_false] at hfire ⊢
    split at hfire
    · rename_i hlen
      simp only [hlen, if_true]
      rcases trackEmotes_cases lower config w (authorName tags)
        (detect7TVEmotes lower s message) s with h | ⟨pre, e, post, t, h1, h2, h3, h4, h5⟩
      · exact absurd h hfire
      · refine ⟨pre, e, post, t, h1, h2, h4, ?_, ?_, ?_, ?_⟩
        · rw [h5]; rfl
        · rw [h5, respondWith_usage, mapGet_mapDelete_same]
        · unfold usersOf
          rw [h5, respondWith_usage, mapGet_mapDelete_same]
          rfl
        · intro key hkey
          rw [h5, respondWith_usage, mapGet_mapDelete_ne _ _ _ hkey,
            shouldRespond_emoteUsage]
    · exact absurd rfl hfire

/-- C7 on sample data: `c` sends `KEKW` when `a`, `b` have used `KEKW` and `a` has used
`PogU`; the bot answers `KEKW`, forgets the users of `kekw` and keeps those of `pogu`. -/
theorem fire_resets_only_its_key_witness :
    (onMessage asciiLower sampleConfig sampleWorld mixedState (tagsOf "c") "KEKW"
        false).2 ≠ [] ∧
    mixedState.emoteUsage = [("pogu", {"a"}), ("kekw", {"a", "b"})] ∧
    (onMessage asciiLower sampleConfig sampleWorld mixedState (tagsOf "c") "KEKW"
        false).1.emoteUsage = [("pogu", {"a"})] ∧
    ∃ (pre : List Emote) (e : Emote) (post : List Emote) (t : State),
      detect7TVEmotes asciiLower mixedState "KEKW" = pre ++ e :: post ∧
      trackEmotes asciiLower sampleConfig sampleWorld (authorName (tagsOf "c")) mixedState
        pre = (t, []) ∧
      (shouldRespond sampleConfig sampleWorld
        (recordUsage t (asciiLower e.name) (authorName (tagsOf "c")))).1 = true ∧
      ((onMessage asciiLower sampleConfig sampleWorld mixedState (tagsOf "c") "KEKW"
        false).2.map (fun r => r.text)) = [e.name] ∧
      mapGet (onMessage asciiLower sampleConfig sampleWorld mixedState (tagsOf "c") "KEKW"
        false).1.emoteUsage (asciiLower e.name) = none ∧
      usersOf (onMessage asciiLower sampleConfig sampleWorld mixedState (tagsOf "c") "KEKW"
        false).1 (asciiLower e.name) = ∅ ∧
      ∀ key, key ≠ asciiLower e.name →
        mapGet (onMessage asciiLower sampleConfig sampleWorld mixedState (tagsOf "c")
          "KEKW" false).1.emoteUsage key =
          mapGet (recordUsage t (asciiLower e.name) (authorName (tagsOf "c"))).emoteUsage
            key :=
  ⟨by decide!, by decide!, by decide!,
    fire_resets_only_its_key asciiLower sampleConfig sampleWorld mixedState (tagsOf "c")
      "KEKW" false (by decide!)⟩

/-! ## C8: a failed send rolls back the cooldown, not the usage reset -/

/-- With a configured cooldown other than `0`, the constant is the configured value. -/
theorem COOLDOWN_SECONDS_of_ne_zero (config : Config) (c : ℚ)
    (hc : config.cooldownSeconds = some c) (hc0 : c ≠ 0) : COOLDOWN_SECONDS config = c := by
  simp [COOLDOWN_SECONDS, hc, hc0]

/-- With the stamp at `0`, the cooldown test of the gate passes at every clock reading of
at least `COOLDOWN_SECONDS * 1000`: the answer is the outcome of the draw. -/
theorem shouldRespond_after_reset (config : Config) (w : World) (t : State)
    (hlast : t.lastResponseTime = 0)
    (hnow : COOLDOWN_SECONDS config * 1000 ≤ (w.clock t.clockCalls : ℚ)) :
    (shouldRespond config w t).1 = decide (w.random t.randomCalls < RESPONSE_CHANCE config) := by
  have hcool : ¬ (((w.clock t.clockCalls - t.lastResponseTime : ℤ) : ℚ) / 1000 <
      COOLDOWN_SECONDS config) := by
    rw [cooldown_active_iff, hlast, not_lt]
    simpa using hnow
  cases hd : (shouldRespond config w t).1
  · have hnot : ¬ (w.random t.randomCalls < RESPONSE_CHANCE config) := by
      intro hlt
      have := (shouldRespond_true_iff config w t).2 ⟨hcool, hlt⟩
      rw [hd] at this
      exact Bool.noConfusion this
    exact (decide_eq_false hnot).symm
  · exact (decide_eq_true ((shouldRespond_true_iff config w t).1 hd).2).symm

/-- C8. Take the state a fire has produced and let the send fail. The stamp
`lastResponseTime` becomes `0`, so that in any state with that stamp the gate passes the
cooldown test at every clock reading of at least `COOLDOWN_SECONDS * 1000` ms (its answer
is then the draw alone); the usage tracker is exactly what the fire left: the fired
emote has no users recorded, they are not restored. -/
theorem send_failure_resets_cooldown_only (lower : String → String) (config : Config)
    (w : World) (s : State) (tags : Tags) (message : String) (self : Bool)
    (hfire : (onMessage lower config w s tags message self).2 ≠ []) :
    (sendFailed (onMessage lower config w s tags message self).1).lastResponseTime = 0 ∧
    (sendFailed (onMessage lower config w s tags message self).1).emoteUsage =
      (onMessage lower config w s tags message self).1.emoteUsage ∧
    (∃ e ∈ detect7TVEmotes lower s message,
      (onMessage lower config w s tags message self).2.map (fun r => r.text) = [e.name] ∧
      usersOf (sendFailed (onMessage lower config w s tags message self).1)
        (lower e.name) = ∅) ∧
    (∀ t : State, t.lastResponseTime = 0 →
      COOLDOWN_SECONDS config * 1000 ≤ (w.clock t.clockCalls : ℚ) →
      (shouldRespond config w t).1 =
        decide (w.random t.randomCalls < RESPONSE_CHANCE config)) := by
  refine ⟨rfl, rfl, ?_, fun t h1 h2 => shouldRespond_after_reset config w t h1 h2⟩
  unfold onMessage at hfire ⊢
  cases self with
  | true => exact absurd rfl hfire
  | false =>
    simp only [Bool.false_eq_true, if_false] at hfire ⊢
    split at hfire
    · rename_i hlen
      simp only [hlen, if_true]
      rcases trackEmotes_cases lower config w (authorName tags)
        (detect7TVEmotes lower s message) s with h | ⟨pre, e, post, t, h1, _, _, _, h5⟩
      · exact absurd h hfire
      · refine ⟨e, by rw [h1]; simp, by rw [h5]; rfl, ?_⟩
        unfold usersOf sendFailed
        rw [h5]
        simp only [respondWith_usage, mapGet_mapDelete_same]
        rfl
    · exact absurd rfl hfire

/-- C8 on sample data: the fire for `KEKW` out of `mixedState`, then the failed send; the
next reading of the sample clock is far beyond the cooldown. -/
theorem send_failure_resets_cooldown_only_witness :
    (onMessage asciiLower sampleConfig sampleWorld mixedState (tagsOf "c") "KEKW"
        false).2 ≠ [] ∧
    (onMessage asciiLower sampleConfig sampleWorld mixedState (tagsOf "c") "KEKW"
        false).1.lastResponseTime = 1700000040000 ∧
    (sendFailed (onMessage asciiLower sampleConfig sampleWorld mixedState (tagsOf "c")
        "KEKW" false).1).lastResponseTime = 0 ∧
    (sendFailed (onMessage asciiLower sampleConfig sampleWorld mixedState (tagsOf "c")
        "KEKW" false).1).emoteUsage = [("pogu", {"a"})] ∧
    (shouldRespond sampleConfig sampleWorld
        (sendFailed (onMessage asciiLower sampleConfig sampleWorld mixedState (tagsOf "c")
          "KEKW" false).1)).1 = true := by
  have h := send_failure_resets_cooldown_only asciiLower sampleConfig sampleWorld mixedState
    (tagsOf "c") "KEKW" false (by decide!)
  refine ⟨by decide!, by decide!, h.1, by rw [h.2.1]; decide!, ?_⟩
  rw [h.2.2.2 _ h.1 (by decide!)]
  decide!

/-! ## C9: one response per message, for the first accepted emote -/

theorem respondWith_responses (w : World) (s : State) (emoteKey : String) (emote : Emote) :
    (respondWith w s emoteKey emote).2 ≠ [] ∧
      (respondWith w s emoteKey emote).2.length = 1 ∧
      (respondWith w s emoteKey emote).2.map (fun r => r.text) = [emote.name] :=
  ⟨by simp [respondWith], rfl, rfl⟩

/-- The loop over `p ++ q`: if the part over `p` has responded, `q` is never looked at. -/
theorem trackEmotes_append (lower : String → String) (config : Config) (w : World)
    (username : String) (p q : List Emote) (s : State) :
    trackEmotes lower config w username s (p ++ q) =
      if (trackEmotes lower config w username s p).2 = [] then
        trackEmotes lower config w username (trackEmotes lower config w username s p).1 q
      else trackEmotes lower config w username s p := by
  induction p generalizing s with
  | nil => simp [trackEmotes]
  | cons e rest ih =>
    rw [List.cons_append]
    by_cases hcount : userCount (recordUsage s (lower e.name) username) (lower e.name) ≥
        MIN_USERS_FOR_RESPONSE
    · cases hgate : (shouldRespond config w (recordUsage s (lower e.name) username)).1
      · rw [trackEmotes_declined lower config w username s e (rest ++ q) hcount hgate,
          trackEmotes_declined lower config w username s e rest hcount hgate]
        exact ih _
      · rw [trackEmotes_fire lower config w username s e (rest ++ q) hcount hgate,
          trackEmotes_fire lower config w username s e rest hcount hgate,
          if_neg (respondWith_responses w _ _ e).1]
    · rw [trackEmotes_below lower config w username s e (rest ++ q) hcount,
        trackEmotes_below lower config w username s e rest hcount]
      exact ih _

theorem trackEmotes_length_le_one (lower : String → String) (config : Config) (w : World)
    (username : String) (emotes : List Emote) (s : State) :
    (trackEmotes lower config w username s emotes).2.length ≤ 1 := by
  rcases trackEmotes_cases lower config w username emotes s with
    h | ⟨_, e, _, _, _, _, _, _, h5⟩
  · rw [h]; exact Nat.zero_le 1
  · rw [h5, (respondWith_responses w _ _ e).2.1]

theorem mapGet_recordUsage_ne (s : State) (emoteKey username key : String)
    (h : key ≠ emoteKey) :
    mapGet (recordUsage s emoteKey username).emoteUsage key = mapGet s.emoteUsage key := by
  unfold recordUsage
  dsimp only
  rw [mapGet_mapSet_ne _ _ _ _ h]
  by_cases hhas : mapHas s.emoteUsage emoteKey = true
  · simp [hhas]
  · simp [hhas, mapGet_mapSet_ne _ _ _ _ h]

/-- The loop leaves alone every key that is not the key of an emote it is given. -/
theorem trackEmotes_usage_frame (lower : String → String) (config : Config) (w : World)
    (username : String) (emotes : List Emote) (s : State) (key : String)
    (hkey : ∀ e ∈ emotes, key ≠ lower e.name) :
    mapGet (trackEmotes lower config w username s emotes).1.emoteUsage key =
      mapGet s.emoteUsage key := by
  induction emotes generalizing s with
  | nil => rfl
  | cons e rest ih =>
    have he : key ≠ lower e.name := hkey e (List.mem_cons_self _ _)
    have hrest : ∀ e' ∈ rest, key ≠ lower e'.name :=
      fun e' h => hkey e' (List.mem_cons_of_mem _ h)
    by_cases hcount : userCount (recordUsage s (lower e.name) username) (lower e.name) ≥
        MIN_USERS_FOR_RESPONSE
    · cases hgate : (shouldRespond config w (recordUsage s (lower e.name) username)).1
      · rw [trackEmotes_declined lower config w username s e rest hcount hgate,
          ih _ hrest, shouldRespond_emoteUsage, mapGet_recordUsage_ne _ _ _ _ he]
      · rw [trackEmotes_fire lower config w username s e rest hcount hgate,
          respondWith_usage, mapGet_mapDelete_ne _ _ _ he, shouldRespond_emoteUsage,
          mapGet_recordUsage_ne _ _ _ _ he]
    · rw [trackEmotes_below lower config w username s e rest hcount, ih _ hrest,
        mapGet_recordUsage_ne _ _ _ _ he]

/-- While the loop has not responded, no emote it has passed was both eligible and
accepted by the gate in the state the loop reached it in. -/
theorem trackEmotes_quiet_before (lower : String → String) (config : Config) (w : World)
    (username : String) (s t : State) (pre p1 p2 : List Emote) (e1 : Emote)
    (hpre : trackEmotes lower config w username s pre = (t, []))
    (hsplit : pre = p1 ++ e1 :: p2) :
    ∃ t1, trackEmotes lower config w username s p1 = (t1, []) ∧
      ¬ (userCount (recordUsage t1 (lower e1.name) username) (lower e1.name) ≥
          MIN_USERS_FOR_RESPONSE ∧
        (shouldRespond config w (recordUsage t1 (lower e1.name) username)).1 = true) := by
  subst hsplit
  rw [trackEmotes_append] at hpre
  by_cases hq : (trackEmotes lower config w username s p1).2 = []
  · rw [if_pos hq] at hpre
    refine ⟨(trackEmotes lower config w username s p1).1, Prod.ext rfl hq, ?_⟩
    rintro ⟨hcount, hgate⟩
    rw [trackEmotes_fire lower config w username _ e1 p2 hcount hgate] at hpre
    exact (respondWith_responses w _ _ e1).1 (congrArg Prod.snd hpre)
  · rw [if_neg hq] at hpre
    exact absurd (congrArg Prod.snd hpre) hq

/-- C9. A message gets at most one response. When it gets one, the match list splits as
`pre ++ e :: post` where `e` is the emote answered: `e` has at least 3 distinct users and
is accepted by the gate in the state `t` in which the loop reaches it, no emote of `pre`
was both in the state the loop reached it in, and the matches `post` are not processed:
the outcome is that of the match list cut after `e`, and the tracker entry of any key
that is not the key of `e` or of an emote of `pre` is what it was before the message. -/
theorem one_response_first_accepted (lower : String → String) (config : Config) (w : World)
    (s : State) (tags : Tags) (message : String) (self : Bool) :
    (onMessage lower config w s tags message self).2.length ≤ 1 ∧
    ((onMessage lower config w s tags message self).2 ≠ [] →
      ∃ (pre : List Emote) (e : Emote) (post : List Emote) (t : State),
        detect7TVEmotes lower s message = pre ++ e :: post ∧
        (onMessage lower config w s tags message self).2.map (fun r => r.text) = [e.name] ∧
        trackEmotes lower config w (authorName tags) s pre = (t, []) ∧
        userCount (recordUsage t (lower e.name) (authorName tags)) (lower e.name) ≥
          MIN_USERS_FOR_RESPONSE ∧
        (shouldRespond config w (recordUsage t (lower e.name) (authorName tags))).1 = true ∧
        (∀ (p1 p2 : List Emote) (e1 : Emote), pre = p1 ++ e1 :: p2 →
          ∃ t1, trackEmotes lower config w (authorName tags) s p1 = (t1, []) ∧
            ¬ (userCount (recordUsage t1 (lower e1.name) (authorName tags))
                (lower e1.name) ≥ MIN_USERS_FOR_RESPONSE ∧
              (shouldRespond config w
                (recordUsage t1 (lower e1.name) (authorName tags))).1 = true)) ∧
        onMessage lower config w s tags message self =
          trackEmotes lower config w (authorName tags) s (pre ++ [e]) ∧
        (∀ key, (∀ e1 ∈ pre ++ [e], key ≠ lower e1.name) →
          mapGet (onMessage lower config w s tags message self).1.emoteUsage key =
            mapGet s.emoteUsage key)) := by
  unfold onMessage
  cases self with
  | true => exact ⟨Nat.zero_le 1, fun h => absurd rfl h⟩
  | false =>
    simp only [Bool.false_eq_true, if_false]
    split
    · refine ⟨trackEmotes_length_le_one lower config w _ _ s, fun hfire => ?_⟩
      rcases trackEmotes_cases lower config w (authorName tags)
        (detect7TVEmotes lower s message) s with h | ⟨pre, e, post, t, h1, h2, h3, h4, h5⟩
      · exact absurd h hfire
      · have hcut : trackEmotes lower config w (authorName tags) s (pre ++ [e]) =
            respondWith w
              (shouldRespond config w (recordUsage t (lower e.name) (authorName tags))).2
              (lower e.name) e := by
          rw [trackEmotes_append, h2]
          simp only [if_true]
          exact trackEmotes_fire lower config w _ t e [] h3 h4
        refine ⟨pre, e, post, t, h1, by rw [h5]; rfl, h2, h3, h4, ?_, by rw [h5, hcut], ?_⟩
        · intro p1 p2 e1 hsplit
          exact trackEmotes_quiet_before lower config w _ s t pre p1 p2 e1 h2 hsplit
        · intro key hkey
          rw [h5, ← hcut]
          exact trackEmotes_usage_frame lower config w _ _ s key hkey
    · exact ⟨Nat.zero_le 1, fun h => absurd rfl h⟩

/-- C9 on sample data: `c` sends `KEKW PogU` out of `mixedState`. The bot answers `KEKW`
only, and `c` is not recorded for `pogu`, whose users stay `a` alone. -/
theorem one_response_first_accepted_witness :
    (onMessage asciiLower sampleConfig sampleWorld mixedState (tagsOf "c") "KEKW PogU"
        false).2 = [{ text := "KEKW", delay := 1050 }] ∧
    usersOf mixedState "pogu" = {"a"} ∧
    usersOf (onMessage asciiLower sampleConfig sampleWorld mixedState (tagsOf "c")
        "KEKW PogU" false).1 "pogu" = {"a"} ∧
    ∃ (pre : List Emote) (e : Emote) (post : List Emote),
      detect7TVEmotes asciiLower mixedState "KEKW PogU" = pre ++ e :: post ∧
      (onMessage asciiLower sampleConfig sampleWorld mixedState (tagsOf "c") "KEKW PogU"
        false).2.map (fun r => r.text) = [e.name] ∧
      onMessage asciiLower sampleConfig sampleWorld mixedState (tagsOf "c") "KEKW PogU"
        false =
        trackEmotes asciiLower sampleConfig sampleWorld (authorName (tagsOf "c")) mixedState
          (pre ++ [e]) := by
  refine ⟨by decide!, by decide!, by decide!, ?_⟩
  obtain ⟨pre, e, post, _, h1, h2, _, _, _, _, h7, _⟩ :=
    (one_response_first_accepted asciiLower sampleConfig sampleWorld mixedState (tagsOf "c")
      "KEKW PogU" false).2 (by decide!)
  exact ⟨pre, e, post, h1, h2, h7⟩

/-! ## C10: matching is token by token, left to right -/

theorem detectLoop_eq (lower : String → String) (s : State) (words : List String)
    (foundEmotes : List Emote) :
    detectLoop lower s words foundEmotes =
      foundEmotes ++ words.filterMap (resolveWord lower s) := by
  induction words generalizing foundEmotes with
  | nil => simp [detectLoop]
  | cons word words ih =>
    cases h : resolveWord lower s word with
    | none => simp [detectLoop, h, ih]
    | some e => simp [detectLoop, h, ih]

theorem detect_eq_filterMap (lower : String → String) (s : State) (message : String) :
    detect7TVEmotes lower s message =
      (splitWhitespace message).filterMap (resolveWord lower s) := by
  unfold detect7TVEmotes
  rw [detectLoop_eq, List.nil_append]

theorem resolveWord_of_clean_empty (lower : String → String) (s : State) (word : String)
    (h : cleanWord word = "") : resolveWord lower s word = none := by
  unfold resolveWord
  simp only [h, if_true]

theorem cleanWord_punctuation (word : String)
    (h : ∀ c ∈ word.data, isPunctuation c = true) : cleanWord word = "" := by
  unfold cleanWord
  have hnil : word.data.filter (fun c => !isPunctuation c) = [] := by
    rw [List.filter_eq_nil_iff]
    intro c hc
    simp [h c hc]
  rw [hnil]

/-- A leading separator only adds an empty first piece. -/
theorem filterMap_splitAux_true (g : List Char → Option Emote) (hg : g [] = none)
    (cs : List Char) :
    (splitAux true cs).filterMap g = (splitAux false cs).filterMap g := by
  cases cs with
  | nil => rfl
  | cons c cs =>
    by_cases hc : isWhitespace c = true
    · simp [splitAux, hc, hg]
    · simp [splitAux, hc]

/-- The pieces of `l1 ++ ' ' :: l2`: those of `l1`, without the empty last piece when `l1`
ends inside a separator, followed by those of `l2` read after a separator. -/
theorem splitAux_append_space (l2 : List Char) (l1 : List Char) (afterSpace : Bool) :
    ∃ front : List (List Char),
      splitAux afterSpace (l1 ++ ' ' :: l2) = front ++ splitAux true l2 ∧
      (front = splitAux afterSpace l1 ∨ front ++ [[]] = splitAux afterSpace l1) ∧
      (afterSpace = false → front ≠ []) := by
  have hspace : isWhitespace ' ' = true := by decide
  induction l1 generalizing afterSpace with
  | nil =>
    cases afterSpace with
    | true => exact ⟨[], by simp [splitAux, hspace], Or.inr rfl, fun h => Bool.noConfusion h⟩
    | false => exact ⟨[[]], by simp [splitAux, hspace], Or.inl rfl, fun _ => by simp⟩
  | cons c cs ih =>
    by_cases hc : isWhitespace c = true
    · obtain ⟨front, h1, h2, _⟩ := ih true
      cases afterSpace with
      | true =>
        refine ⟨front, ?_, ?_, fun h => Bool.noConfusion h⟩
        · rw [List.cons_append]
          simp only [splitAux, hc, if_true]
          exact h1
        · simpa [splitAux, hc] using h2
      | false =>
        refine ⟨[] :: front, ?_, ?_, fun _ => by simp⟩
        · rw [List.cons_append]
          simp only [splitAux, hc, if_true, Bool.false_eq_true, if_false]
          rw [h1]
          rfl
        · rcases h2 with h2 | h2
          · left; simp [splitAux, hc, h2]
          · right; simp [splitAux, hc, ← h2]
    · obtain ⟨front, h1, h2, h3⟩ := ih false
      obtain ⟨piece, pieces, hfront⟩ := List.exists_cons_of_ne_nil (h3 rfl)
      subst hfront
      refine ⟨(c :: piece) :: pieces, ?_, ?_, fun _ => by simp⟩
      · rw [List.cons_append]
        simp only [splitAux, hc, Bool.false_eq_true, if_false]
        rw [h1]
        rfl
      · rcases h2 with h2 | h2
        · left
          simp only [splitAux, hc, Bool.false_eq_true, if_false]
          rw [← h2]
        · right
          simp only [splitAux, hc, Bool.false_eq_true, if_false]
          rw [← h2]
          rfl

theorem filterMap_splitAux_append_space (g : List Char → Option Emote) (hg : g [] = none)
    (l1 l2 : List Char) :
    (splitAux false (l1 ++ ' ' :: l2)).filterMap g =
      (splitAux false l1).filterMap g ++ (splitAux false l2).filterMap g := by
  obtain ⟨front, h1, h2, _⟩ := splitAux_append_space l2 l1 false
  rw [h1, List.filterMap_append, filterMap_splitAux_true g hg l2]
  rcases h2 with h2 | h2
  · rw [h2]
  · rw [← h2, List.filterMap_append]
    simp [hg]

/-- Every piece is made of characters of the input that are not whitespace. -/
theorem splitAux_pieces (cs : List Char) (afterSpace : Bool) :
    ∀ piece ∈ splitAux afterSpace cs, ∀ c ∈ piece, c ∈ cs ∧ isWhitespace c = false := by
  induction cs generalizing afterSpace with
  | nil =>
    intro piece hp c hc
    simp only [splitAux, List.mem_singleton] at hp
    subst hp
    exact absurd hc (List.not_mem_nil _)
  | cons d ds ih =>
    intro piece hp c hc
    by_cases hd : isWhitespace d = true
    · have hp' : piece = [] ∨ piece ∈ splitAux true ds := by
        cases afterSpace with
        | true =>
          right
          simpa [splitAux, hd] using hp
        | false =>
          simpa [splitAux, hd] using hp
      rcases hp' with hp' | hp'
      · subst hp'
        exact absurd hc (List.not_mem_nil _)
      · obtain ⟨h1, h2⟩ := ih true piece hp' c hc
        exact ⟨List.mem_cons_of_mem _ h1, h2⟩
    · have hd' : isWhitespace d = false := by simpa using hd
      simp only [splitAux, hd, Bool.false_eq_true, if_false] at hp
      cases hsplit : splitAux false ds with
      | nil =>
        rw [hsplit] at hp
        simp only [List.mem_singleton] at hp
        subst hp
        simp only [List.mem_singleton] at hc
        subst hc
        exact ⟨List.mem_cons_self _ _, hd'⟩
      | cons first others =>
        rw [hsplit] at hp
        simp only [List.mem_cons] at hp
        rcases hp with hp | hp
        · subst hp
          rcases List.mem_cons.1 hc with hc | hc
          · subst hc
            exact ⟨List.mem_cons_self _ _, hd'⟩
          · obtain ⟨h1, h2⟩ := ih false first (by rw [hsplit]; exact List.mem_cons_self _ _)
              c hc
            exact ⟨List.mem_cons_of_mem _ h1, h2⟩
        · obtain ⟨h1, h2⟩ := ih false piece
            (by rw [hsplit]; exact List.mem_cons_of_mem _ hp) c hc
          exact ⟨List.mem_cons_of_mem _ h1, h2⟩

theorem data_append_space (m1 m2 : String) :
    (m1 ++ " " ++ m2).data = m1.data ++ ' ' :: m2.data := by
  simp [String.data_append]

/-- C10. For every catalog, `detect7TVEmotes` of `m1 ++ " " ++ m2` is `detect7TVEmotes` of
`m1` followed by `detect7TVEmotes` of `m2`. The match list is, in left-to-right order,
what each whitespace-separated piece resolves to (nothing or one emote, each occurrence
kept). A piece made only of the stripped punctuation characters resolves to nothing, and a
message made only of punctuation and whitespace has an empty match list. -/
theorem match_is_tokenwise (lower : String → String) (s : State) :
    (∀ m1 m2 : String,
      detect7TVEmotes lower s (m1 ++ " " ++ m2) =
        detect7TVEmotes lower s m1 ++ detect7TVEmotes lower s m2) ∧
    (∀ m : String,
      detect7TVEmotes lower s m = (splitWhitespace m).filterMap (resolveWord lower s)) ∧
    (∀ word : String, (∀ c ∈ word.data, isPunctuation c = true) →
      resolveWord lower s word = none) ∧
    (∀ m : String, (∀ c ∈ m.data, isPunctuation c = true ∨ isWhitespace c = true) →
      detect7TVEmotes lower s m = []) := by
  have hempty : (fun piece => resolveWord lower s (String.mk piece)) [] = none :=
    resolveWord_of_clean_empty lower s (String.mk []) rfl
  refine ⟨?_, detect_eq_filterMap lower s, ?_, ?_⟩
  · intro m1 m2
    simp only [detect_eq_filterMap, splitWhitespace, List.filterMap_map, data_append_space]
    exact filterMap_splitAux_append_space _ hempty m1.data m2.data
  · intro word h
    exact resolveWord_of_clean_empty lower s word (cleanWord_punctuation word h)
  · intro m h
    rw [detect_eq_filterMap, splitWhitespace, List.filterMap_map, List.filterMap_eq_nil_iff]
    intro piece hpiece
    apply resolveWord_of_clean_empty
    apply cleanWord_punctuation
    intro c hc
    obtain ⟨hmem, hws⟩ := splitAux_pieces m.data false piece hpiece c hc
    rcases h c hmem with hp | hw
    · exact hp
    · rw [hws] at hw
      exact Bool.noConfusion hw

/-- C10 on sample data, with the catalog of `mixedState` (`KEKW`, `PogU`). -/
theorem match_is_tokenwise_witness :
    (detect7TVEmotes asciiLower mixedState ("hi KEKW  pogu!" ++ " " ++ " ... KEKW ")).map
        (fun e => e.name) = ["KEKW", "PogU", "KEKW"] ∧
    detect7TVEmotes asciiLower mixedState ("hi KEKW  pogu!" ++ " " ++ " ... KEKW ") =
      detect7TVEmotes asciiLower mixedState "hi KEKW  pogu!" ++
        detect7TVEmotes asciiLower mixedState " ... KEKW " ∧
    resolveWord asciiLower mixedState "?!" = none ∧
    detect7TVEmotes asciiLower mixedState " ... (?!) " = [] :=
  ⟨by decide,
    (match_is_tokenwise asciiLower mixedState).1 "hi KEKW  pogu!" " ... KEKW ",
    (match_is_tokenwise asciiLower mixedState).2.2.1 "?!" (by decide),
    (match_is_tokenwise asciiLower mixedState).2.2.2 " ... (?!) " (by decide)⟩

/-! ## C11: a message that does not fire only records usage -/

theorem mapGet_recordUsage_same (s : State) (emoteKey username : String) :
    mapGet (recordUsage s emoteKey username).emoteUsage emoteKey =
      some (insert username (usersOf s emoteKey)) := by
  unfold recordUsage usersOf
  dsimp only
  rw [mapGet_mapSet_same]
  by_cases hhas : mapHas s.emoteUsage emoteKey = true
  · simp [hhas]
  · have hnone : mapGet s.emoteUsage emoteKey = none := by
      simpa [mapHas] using hhas
    simp [hhas, mapGet_mapSet_same, hnone]

/-- The tracking loop never touches the catalog. -/
theorem trackEmotes_catalog (lower : String → String) (config : Config) (w : World)
    (username : String) (emotes : List Emote) (s : State) :
    (trackEmotes lower config w username s emotes).1.channelEmotes = s.channelEmotes ∧
      (trackEmotes lower config w username s emotes).1.channelEmotesExact =
        s.channelEmotesExact := by
  induction emotes generalizing s with
  | nil => exact ⟨rfl, rfl⟩
  | cons e rest ih =>
    by_cases hcount : userCount (recordUsage s (lower e.name) username) (lower e.name) ≥
        MIN_USERS_FOR_RESPONSE
    · cases hgate : (shouldRespond config w (recordUsage s (lower e.name) username)).1
      · rw [trackEmotes_declined lower config w username s e rest hcount hgate]
        obtain ⟨h1, h2⟩ := ih (shouldRespond config w (recordUsage s (lower e.name) username)).2
        obtain ⟨g1, g2⟩ := shouldRespond_channelEmotes config w
          (recordUsage s (lower e.name) username)
        exact ⟨h1.trans g1, h2.trans g2⟩
      · rw [trackEmotes_fire lower config w username s e rest hcount hgate]
        exact shouldRespond_channelEmotes config w (recordUsage s (lower e.name) username)
    · rw [trackEmotes_below lower config w username s e rest hcount]
      exact ih _

/-- When the loop ends without a response, the author is in the set of every key it was
given, and that set is the previous one with the author added. -/
theorem trackEmotes_recorded (lower : String → String) (config : Config) (w : World)
    (username : String) (emotes : List Emote) (s : State)
    (hquiet : (trackEmotes lower config w username s emotes).2 = []) (key : String)
    (hkey : ∃ e ∈ emotes, lower e.name = key) :
    mapGet (trackEmotes lower config w username s emotes).1.emoteUsage key =
      some (insert username (usersOf s key)) := by
  induction emotes generalizing s with
  | nil =>
    obtain ⟨e, he, _⟩ := hkey
    exact absurd he (List.not_mem_nil _)
  | cons e rest ih =>
    -- the state in which the loop goes on after `e`, with the usage of `recordUsage`
    have hnext : ∃ s1 : State,
        trackEmotes lower config w username s (e :: rest) =
          trackEmotes lower config w username s1 rest ∧
        s1.emoteUsage = (recordUsage s (lower e.name) username).emoteUsage := by
      by_cases hcount : userCount (recordUsage s (lower e.name) username) (lower e.name) ≥
          MIN_USERS_FOR_RESPONSE
      · cases hgate : (shouldRespond config w (recordUsage s (lower e.name) username)).1
        · exact ⟨_, trackEmotes_declined lower config w username s e rest hcount hgate,
            shouldRespond_emoteUsage config w _⟩
        · rw [trackEmotes_fire lower config w username s e rest hcount hgate] at hquiet
          exact absurd hquiet (respondWith_responses w _ _ e).1
      · exact ⟨_, trackEmotes_below lower config w username s e rest hcount, rfl⟩
    obtain ⟨s1, hstep, husage⟩ := hnext
    rw [hstep] at hquiet ⊢
    have husers : ∀ k, usersOf s1 k =
        usersOf (recordUsage s (lower e.name) username) k :=
      fun k => usersOf_congr _ _ husage k
    by_cases hrest : ∃ e1 ∈ rest, lower e1.name = key
    · rw [ih s1 hquiet hrest, husers, usersOf_recordUsage]
      by_cases hk : key = lower e.name
      · subst hk
        simp
      · rw [if_neg hk]
    · have hfresh : ∀ e1 ∈ rest, key ≠ lower e1.name := by
        intro e1 he1 h
        exact hrest ⟨e1, he1, h.symm⟩
      have hk : lower e.name = key := by
        obtain ⟨e1, he1, hname⟩ := hkey
        rcases List.mem_cons.1 he1 with h | h
        · rw [← h]; exact hname
        · exact absurd ⟨e1, h, hname⟩ hrest
      rw [trackEmotes_usage_frame lower config w username rest s1 key hfresh, husage, ← hk,
        mapGet_recordUsage_same]

/-- If no emote of the list is both eligible and accepted in the state the loop reaches it
in, the loop ends without a response. -/
theorem trackEmotes_quiet_of_rejected (lower : String → String) (config : Config)
    (w : World) (username : String) (emotes : List Emote) (s : State)
    (hrej : ∀ (p1 p2 : List Emote) (e1 : Emote), emotes = p1 ++ e1 :: p2 →
      ¬ (userCount (recordUsage (trackEmotes lower config w username s p1).1
            (lower e1.name) username) (lower e1.name) ≥ MIN_USERS_FOR_RESPONSE ∧
          (shouldRespond config w (recordUsage (trackEmotes lower config w username s p1).1
            (lower e1.name) username)).1 = true)) :
    (trackEmotes lower config w username s emotes).2 = [] := by
  rcases trackEmotes_cases lower config w username emotes s with
    h | ⟨pre, e, post, t, h1, h2, h3, h4, _⟩
  · exact h
  · have := hrej pre post e h1
    rw [h2] at this
    exact absurd ⟨h3, h4⟩ this

/-- A message that is not the bot's own is handled by the tracking loop on its match
list (the loop does nothing on an empty list). -/
theorem onMessage_not_self (lower : String → String) (config : Config) (w : World)
    (s : State) (tags : Tags) (message : String) :
    onMessage lower config w s tags message false =
      trackEmotes lower config w (authorName tags) s (detect7TVEmotes lower s message) := by
  unfold onMessage
  simp only [Bool.false_eq_true, if_false]
  split
  · rfl
  · rename_i h
    have hnil : detect7TVEmotes lower s message = [] := by
      cases hd : detect7TVEmotes lower s message with
      | nil => rfl
      | cons e rest =>
        rw [hd] at h
        exact absurd (Nat.succ_pos _) h
    rw [hnil]
    rfl

/-- C11. Take any state and any incoming message for which, when it is not the bot's own,
every matched emote is rejected in the state the loop reaches it in (threshold not met, or
the gate declines: cooldown active or draw not below the chance). Then no response is
emitted, `lastResponseTime` and both catalog indices are unchanged, a tracker key that is
not the key of a matched emote keeps its entry (every key does for the bot's own
message, which is not matched at all), and the entry of the key of each matched emote is
its previous user set with the author added. -/
theorem quiet_message_only_records_usage (lower : String → String) (config : Config)
    (w : World) (s : State) (tags : Tags) (message : String) (self : Bool)
    (hrej : self = false → ∀ (p1 p2 : List Emote) (e1 : Emote),
      detect7TVEmotes lower s message = p1 ++ e1 :: p2 →
      ¬ (userCount (recordUsage (trackEmotes lower config w (authorName tags) s p1).1
            (lower e1.name) (authorName tags)) (lower e1.name) ≥ MIN_USERS_FOR_RESPONSE ∧
          (shouldRespond config w
            (recordUsage (trackEmotes lower config w (authorName tags) s p1).1
              (lower e1.name) (authorName tags))).1 = true)) :
    (onMessage lower config w s tags message self).2 = [] ∧
    (onMessage lower config w s tags message self).1.lastResponseTime =
      s.lastResponseTime ∧
    (onMessage lower config w s tags message self).1.channelEmotes = s.channelEmotes ∧
    (onMessage lower config w s tags message self).1.channelEmotesExact =
      s.channelEmotesExact ∧
    (∀ key, (self = true ∨ ∀ e ∈ detect7TVEmotes lower s message, key ≠ lower e.name) →
      mapGet (onMessage lower config w s tags message self).1.emoteUsage key =
        mapGet s.emoteUsage key) ∧
    (∀ key, self = false → (∃ e ∈ detect7TVEmotes lower s message, lower e.name = key) →
      mapGet (onMessage lower config w s tags message self).1.emoteUsage key =
        some (insert (authorName tags) (usersOf s key))) := by
  cases self with
  | true =>
    exact ⟨rfl, rfl, rfl, rfl, fun _ _ => rfl, fun _ h => Bool.noConfusion h⟩
  | false =>
    rw [onMessage_not_self]
    have hquiet := trackEmotes_quiet_of_rejected lower config w (authorName tags)
      (detect7TVEmotes lower s message) s (hrej rfl)
    obtain ⟨hc1, hc2⟩ := trackEmotes_catalog lower config w (authorName tags)
      (detect7TVEmotes lower s message) s
    refine ⟨hquiet, ?_, hc1, hc2, ?_, ?_⟩
    · rcases trackEmotes_timing lower config w (authorName tags)
        (detect7TVEmotes lower s message) s with ⟨_, h, _⟩ | ⟨h, _⟩
      · exact h
      · exact absurd hquiet h
    · intro key hkey
      rcases hkey with h | h
      · exact Bool.noConfusion h
      · exact trackEmotes_usage_frame lower config w _ _ s key h
    · intro key _ hkey
      exact trackEmotes_recorded lower config w _ _ s hquiet key hkey

/-- C11 on sample data: `c` sends `KEKW` out of `mixedState` with the chance at `0.01`.
The emote reaches three users but the draw `0.05` misses: nothing is emitted, the stamp
stays `0`, and `c` joins the users of `kekw` while those of `pogu` stay as they were. -/
theorem quiet_message_only_records_usage_witness :
    (onMessage asciiLower lowChanceConfig sampleWorld mixedState (tagsOf "c") "KEKW"
        false).2 = [] ∧
    (onMessage asciiLower lowChanceConfig sampleWorld mixedState (tagsOf "c") "KEKW"
        false).1.lastResponseTime = 0 ∧
    mixedState.emoteUsage = [("pogu", {"a"}), ("kekw", {"a", "b"})] ∧
    (onMessage asciiLower lowChanceConfig sampleWorld mixedState (tagsOf "c") "KEKW"
        false).1.emoteUsage = [("pogu", {"a"}), ("kekw", {"c", "a", "b"})] ∧
    mapGet (onMessage asciiLower lowChanceConfig sampleWorld mixedState (tagsOf "c") "KEKW"
        false).1.emoteUsage "kekw" =
      some (insert (authorName (tagsOf "c")) (usersOf mixedState "kekw")) := by
  have hd : detect7TVEmotes asciiLower mixedState "KEKW" =
      [{ name := "KEKW", id := none, animated := false }] := by decide
  have h := quiet_message_only_records_usage asciiLower lowChanceConfig sampleWorld
    mixedState (tagsOf "c") "KEKW" false (by
      intro _ p1 p2 e1 hsplit
      rw [hd] at hsplit
      cases p1 with
      | nil =>
        simp only [List.nil_append, List.cons.injEq] at hsplit
        obtain ⟨h1, _⟩ := hsplit
        subst h1
        decide!
      | cons e0 p1 =>
        simp at hsplit)
  refine ⟨h.1, ?_, by decide!, by decide!, ?_⟩
  · rw [h.2.1]; decide!
  · exact h.2.2.2.2.2 "kekw" rfl ⟨_, by rw [hd]; exact List.mem_singleton.2 rfl, by decide⟩

/-! ## C12: three users, one response -/

theorem resolveWord_congr (lower : String → String) (s t : State)
    (h1 : t.channelEmotes = s.channelEmotes)
    (h2 : t.channelEmotesExact = s.channelEmotesExact) (word : String) :
    resolveWord lower t word = resolveWord lower s word := by
  unfold resolveWord
  rw [h1, h2]

theorem detect_congr (lower : String → String) (s t : State)
    (h1 : t.channelEmotes = s.channelEmotes)
    (h2 : t.channelEmotesExact = s.channelEmotesExact) (message : String) :
    detect7TVEmotes lower t message = detect7TVEmotes lower s message := by
  rw [detect_eq_filterMap, detect_eq_filterMap]
  have hfun : resolveWord lower t = resolveWord lower s :=
    funext (resolveWord_congr lower s t h1 h2)
  rw [hfun]

/-- A word whose cleaned form is a key of the exact-case index resolves to the emote
stored under it. -/
theorem resolveWord_exact (lower : String → String) (s : State) (word name : String)
    (e : Emote) (hclean : cleanWord word = name) (hname : name ≠ "")
    (hget : mapGet s.channelEmotesExact name = some e) :
    resolveWord lower s word = some e := by
  unfold resolveWord
  simp only [hclean, hname, if_false, mapHas, hget, Option.isSome_some, if_true]

theorem mem_detect_of_token (lower : String → String) (s : State) (message name : String)
    (e : Emote) (hname : name ≠ "") (hget : mapGet s.channelEmotesExact name = some e)
    (htoken : ∃ word ∈ splitWhitespace message, cleanWord word = name) :
    e ∈ detect7TVEmotes lower s message := by
  obtain ⟨word, hword, hclean⟩ := htoken
  rw [detect_eq_filterMap, List.mem_filterMap]
  exact ⟨word, hword, resolveWord_exact lower s word name e hclean hname hget⟩

/-- What a message without response does, in terms of `afterMessage`. -/
theorem afterMessage_quiet (lower : String → String) (config : Config) (w : World)
    (s : State) (tags : Tags) (message : String)
    (hquiet : (onMessage lower config w s tags message false).2 = []) :
    (afterMessage lower config w s tags message).lastResponseTime = s.lastResponseTime ∧
    (afterMessage lower config w s tags message).channelEmotes = s.channelEmotes ∧
    (afterMessage lower config w s tags message).channelEmotesExact =
      s.channelEmotesExact ∧
    (∀ e ∈ detect7TVEmotes lower s message,
      usersOf (afterMessage lower config w s tags message) (lower e.name) =
        insert (authorName tags) (usersOf s (lower e.name))) := by
  unfold afterMessage
  rw [onMessage_not_self] at hquiet ⊢
  obtain ⟨hc1, hc2⟩ := trackEmotes_catalog lower config w (authorName tags)
    (detect7TVEmotes lower s message) s
  refine ⟨?_, hc1, hc2, ?_⟩
  · rcases trackEmotes_timing lower config w (authorName tags)
      (detect7TVEmotes lower s message) s with ⟨_, h, _⟩ | ⟨h, _⟩
    · exact h
    · exact absurd hquiet h
  · intro e he
    have := trackEmotes_recorded lower config w _ _ s hquiet (lower e.name) ⟨e, he, rfl⟩
    unfold usersOf at this ⊢
    rw [this]
    rfl

theorem card_three_users (a b c : String) (hab : a ≠ b) (hac : a ≠ c) (hbc : b ≠ c) :
    (insert c (insert b (insert a (∅ : Finset String)))).card = 3 := by
  rw [Finset.card_insert_of_not_mem, Finset.card_insert_of_not_mem,
    Finset.card_insert_of_not_mem, Finset.card_empty]
  · exact Finset.not_mem_empty a
  · simp [hab.symm]
  · simp [hac.symm, hbc.symm]

/-- The loop over `pre`, when it ends without a response, leaves the stamp alone and
keeps, under every key, a user set that differs from the previous one by the author at
most. -/
theorem trackEmotes_quiet_users (lower : String → String) (config : Config) (w : World)
    (username : String) (pre : List Emote) (s : State)
    (hquiet : (trackEmotes lower config w username s pre).2 = []) (key : String) :
    (trackEmotes lower config w username s pre).1.lastResponseTime = s.lastResponseTime ∧
      insert username (usersOf (trackEmotes lower config w username s pre).1 key) =
        insert username (usersOf s key) := by
  constructor
  · rcases trackEmotes_timing lower config w username pre s with ⟨_, h, _⟩ | ⟨h, _⟩
    · exact h
    · exact absurd hquiet h
  · by_cases hkey : ∃ e ∈ pre, lower e.name = key
    · have h := trackEmotes_recorded lower config w username pre s hquiet key hkey
      have hu : usersOf (trackEmotes lower config w username s pre).1 key =
          insert username (usersOf s key) := by
        unfold usersOf at h ⊢
        rw [h]
        rfl
      rw [hu, Finset.insert_idem]
    · have hfresh : ∀ e ∈ pre, key ≠ lower e.name := by
        intro e he h
        exact hkey ⟨e, he, h.symm⟩
      have h := trackEmotes_usage_frame lower config w username pre s key hfresh
      have hu : usersOf (trackEmotes lower config w username s pre).1 key =
          usersOf s key := by
        unfold usersOf
        rw [h]
      rw [hu]

/-- C12, as amended. Start with an empty tracker and an exact-case index that holds the
emote `KEKW`. Three distinct users `a`, `b`, `c` each send a message, not the bot's own,
that contains a token whose cleaned form is `KEKW`. The match list of the message of `c`
is `pre ++ e :: post` with `e` named `KEKW`, and none of the matches `pre` before it
fires: the loop over `pre`, in the state the first two messages have left, ends without a
response. At every reading the cooldown has elapsed and the draw is below
`RESPONSE_CHANCE`. Then the first two messages get no response, the third gets exactly
one, with text `KEKW`, and afterwards no user is recorded for the key of `KEKW`. -/
theorem three_users_one_response (lower : String → String) (config : Config) (w : World)
    (s : State) (kekw e : Emote) (pre post : List Emote) (ta tb tc : Tags)
    (m1 m2 m3 : String)
    (hs : s.emoteUsage = [])
    (hcat : mapGet s.channelEmotesExact "KEKW" = some kekw) (hname : kekw.name = "KEKW")
    (hab : authorName ta ≠ authorName tb) (hac : authorName ta ≠ authorName tc)
    (hbc : authorName tb ≠ authorName tc)
    (hm1 : ∃ word ∈ splitWhitespace m1, cleanWord word = "KEKW")
    (hm2 : ∃ word ∈ splitWhitespace m2, cleanWord word = "KEKW")
    (_hm3 : ∃ word ∈ splitWhitespace m3, cleanWord word = "KEKW")
    (hsplit : detect7TVEmotes lower s m3 = pre ++ e :: post) (hename : e.name = "KEKW")
    (hpre : (trackEmotes lower config w (authorName tc)
      (afterMessage lower config w (afterMessage lower config w s ta m1) tb m2) pre).2 = [])
    (hcool : ∀ n, ¬ (((w.clock n - s.lastResponseTime : ℤ) : ℚ) / 1000 <
      COOLDOWN_SECONDS config))
    (hdraw : ∀ n, w.random n < RESPONSE_CHANCE config) :
    (onMessage lower config w s ta m1 false).2 = [] ∧
    (onMessage lower config w (afterMessage lower config w s ta m1) tb m2 false).2 = [] ∧
    (onMessage lower config w
        (afterMessage lower config w (afterMessage lower config w s ta m1) tb m2)
        tc m3 false).2.map (fun r => r.text) = ["KEKW"] ∧
    usersOf (afterMessage lower config w
        (afterMessage lower config w (afterMessage lower config w s ta m1) tb m2) tc m3)
      (lower "KEKW") = ∅ := by
  have hne : ("KEKW" : String) ≠ "" := by decide
  have hkey : lower kekw.name = lower "KEKW" := by rw [hname]
  have hinv0 : ∀ key, usersOf s key ⊆ {authorName ta, authorName tb} := by
    intro key
    simp [usersOf, hs, mapGet]
  have hempty : usersOf s (lower "KEKW") = ∅ := by
    simp [usersOf, hs, mapGet]
  -- first message
  obtain ⟨hq1, hinv1⟩ := step_two_users lower config w (authorName ta) (authorName tb) s
    (Event.message ta m1 false) (by simp [Event.onlyFrom]) hinv0
  have hq1 : (onMessage lower config w s ta m1 false).2 = [] := hq1
  have hinv1 : ∀ key, usersOf (afterMessage lower config w s ta m1) key ⊆
      {authorName ta, authorName tb} := hinv1
  obtain ⟨hl1, hc1, hx1, hu1⟩ := afterMessage_quiet lower config w s ta m1 hq1
  have husers1 := hu1 kekw (mem_detect_of_token lower s m1 "KEKW" kekw hne hcat hm1)
  rw [hkey, hempty] at husers1
  -- second message
  obtain ⟨hq2, _⟩ := step_two_users lower config w (authorName ta) (authorName tb)
    (afterMessage lower config w s ta m1) (Event.message tb m2 false)
    (by simp [Event.onlyFrom]) hinv1
  have hq2 : (onMessage lower config w (afterMessage lower config w s ta m1) tb m2
      false).2 = [] := hq2
  obtain ⟨hl2, hc2, hx2, hu2⟩ := afterMessage_quiet lower config w
    (afterMessage lower config w s ta m1) tb m2 hq2
  have husers2 := hu2 kekw (mem_detect_of_token lower _ m2 "KEKW" kekw hne
    (by rw [hx1]; exact hcat) hm2)
  rw [hkey, husers1] at husers2
  -- third message: the matches before `e` pass without a response
  have hdetect : detect7TVEmotes lower
      (afterMessage lower config w (afterMessage lower config w s ta m1) tb m2) m3 =
      pre ++ e :: post := by
    rw [detect_congr lower s _ (hc2.trans hc1) (hx2.trans hx1)]
    exact hsplit
  obtain ⟨hlt, hut⟩ := trackEmotes_quiet_users lower config w (authorName tc) pre
    (afterMessage lower config w (afterMessage lower config w s ta m1) tb m2) hpre
    (lower "KEKW")
  have hcount : userCount (recordUsage
      (trackEmotes lower config w (authorName tc)
        (afterMessage lower config w (afterMessage lower config w s ta m1) tb m2) pre).1
      (lower e.name) (authorName tc)) (lower e.name) ≥ MIN_USERS_FOR_RESPONSE := by
    rw [userCount_eq_card, usersOf_recordUsage, if_pos rfl, hename, hut, husers2,
      card_three_users _ _ _ hab hac hbc]
    exact le_refl 3
  have hgate : (shouldRespond config w (recordUsage
      (trackEmotes lower config w (authorName tc)
        (afterMessage lower config w (afterMessage lower config w s ta m1) tb m2) pre).1
      (lower e.name) (authorName tc))).1 = true := by
    rw [shouldRespond_true_iff]
    refine ⟨?_, hdraw _⟩
    have hlast : (recordUsage
        (trackEmotes lower config w (authorName tc)
          (afterMessage lower config w (afterMessage lower config w s ta m1) tb m2) pre).1
        (lower e.name) (authorName tc)).lastResponseTime = s.lastResponseTime :=
      hlt.trans (hl2.trans hl1)
    rw [hlast]
    exact hcool _
  have hfire : trackEmotes lower config w (authorName tc)
      (afterMessage lower config w (afterMessage lower config w s ta m1) tb m2)
      (pre ++ e :: post) =
      respondWith w (shouldRespond config w (recordUsage
        (trackEmotes lower config w (authorName tc)
          (afterMessage lower config w (afterMessage lower config w s ta m1) tb m2) pre).1
        (lower e.name) (authorName tc))).2 (lower e.name) e := by
    rw [trackEmotes_append, if_pos hpre]
    exact trackEmotes_fire lower config w (authorName tc) _ e post hcount hgate
  refine ⟨hq1, hq2, ?_, ?_⟩
  · rw [onMessage_not_self, hdetect, hfire, (respondWith_responses w _ _ e).2.2, hename]
  · unfold usersOf
    rw [show afterMessage lower config w
        (afterMessage lower config w (afterMessage lower config w s ta m1) tb m2) tc m3 =
        (onMessage lower config w
          (afterMessage lower config w (afterMessage lower config w s ta m1) tb m2)
          tc m3 false).1 from rfl,
      onMessage_not_self, hdetect, hfire, respondWith_usage, hename,
      mapGet_mapDelete_same]
    rfl

theorem sampleWorld_cooldown_elapsed (n : ℕ) :
    ¬ (((sampleWorld.clock n - 0 : ℤ) : ℚ) / 1000 < COOLDOWN_SECONDS sampleConfig) := by
  have hc : COOLDOWN_SECONDS sampleConfig = 30 := by
    simp [COOLDOWN_SECONDS, sampleConfig]
  have hn : (0 : ℚ) ≤ (n : ℚ) := Nat.cast_nonneg n
  rw [cooldown_active_iff, hc, not_lt]
  simp only [sampleWorld]
  push_cast
  linarith

theorem sampleWorld_draw_below (n : ℕ) :
    sampleWorld.random n < RESPONSE_CHANCE sampleConfig := by
  simp only [sampleWorld, RESPONSE_CHANCE, sampleConfig]
  norm_num

/-- C12 on the sample catalog that holds `KEKW` and `PogU`: `a` sends `KEKW`, `b` sends
`hi KEKW!`, `c` sends `PogU KEKW`. In the message of `c` the match `PogU` comes first,
has one user and does not fire; the answer is `KEKW`. -/
theorem three_users_one_response_witness :
    (trackEmotes asciiLower sampleConfig sampleWorld (authorName (tagsOf "c"))
        (afterMessage asciiLower sampleConfig sampleWorld
          (afterMessage asciiLower sampleConfig sampleWorld pairState (tagsOf "a") "KEKW")
          (tagsOf "b") "hi KEKW!")
        [{ name := "PogU", id := none, animated := false }]).2 = [] ∧
    (onMessage asciiLower sampleConfig sampleWorld pairState (tagsOf "a") "KEKW"
        false).2 = [] ∧
    (onMessage asciiLower sampleConfig sampleWorld
        (afterMessage asciiLower sampleConfig sampleWorld pairState (tagsOf "a") "KEKW")
        (tagsOf "b") "hi KEKW!" false).2 = [] ∧
    (onMessage asciiLower sampleConfig sampleWorld
        (afterMessage asciiLower sampleConfig sampleWorld
          (afterMessage asciiLower sampleConfig sampleWorld pairState (tagsOf "a") "KEKW")
          (tagsOf "b") "hi KEKW!")
        (tagsOf "c") "PogU KEKW" false).2.map (fun r => r.text) = ["KEKW"] ∧
    usersOf (afterMessage asciiLower sampleConfig sampleWorld
        (afterMessage asciiLower sampleConfig sampleWorld
          (afterMessage asciiLower sampleConfig sampleWorld pairState (tagsOf "a") "KEKW")
          (tagsOf "b") "hi KEKW!")
        (tagsOf "c") "PogU KEKW")
      (asciiLower "KEKW") = ∅ :=
  ⟨by decide!,
    three_users_one_response asciiLower sampleConfig sampleWorld pairState
      { name := "KEKW", id := none, animated := false }
      { name := "KEKW", id := none, animated := false }
      [{ name := "PogU", id := none, animated := false }] []
      (tagsOf "a") (tagsOf "b") (tagsOf "c") "KEKW" "hi KEKW!" "PogU KEKW"
      (by decide) (by decide) rfl (by decide) (by decide) (by decide)
      ⟨"KEKW", by decide, by decide⟩ ⟨"KEKW!", by decide, by decide⟩
      ⟨"KEKW", by decide, by decide⟩ (by decide) rfl (by decide!)
      sampleWorld_cooldown_elapsed sampleWorld_draw_below⟩

/-- C12, as first stated, fails when a match before `KEKW` fires. The catalog
holds `KEKW` and `PogU`, the tracker is empty, the cooldown has elapsed and the draw is
below the chance at every reading; `a`, `b`, `c` each send `PogU KEKW`, which contains the
token `KEKW`. The first two messages get no response, the third is answered with `PogU`,
not `KEKW`, and the users `a`, `b` stay recorded for `KEKW`. -/
theorem kekw_scenario_answers_other_emote :
    pairState.emoteUsage = [] ∧
    mapGet pairState.channelEmotesExact "KEKW" =
      some { name := "KEKW", id := none, animated := false } ∧
    (∃ word ∈ splitWhitespace "PogU KEKW", cleanWord word = "KEKW") ∧
    (∀ n : ℕ, ¬ (((sampleWorld.clock n - pairState.lastResponseTime : ℤ) : ℚ) / 1000 <
      COOLDOWN_SECONDS sampleConfig)) ∧
    (∀ n : ℕ, sampleWorld.random n < RESPONSE_CHANCE sampleConfig) ∧
    (onMessage asciiLower sampleConfig sampleWorld pairState (tagsOf "a") "PogU KEKW"
        false).2 = [] ∧
    (onMessage asciiLower sampleConfig sampleWorld
        (afterMessage asciiLower sampleConfig sampleWorld pairState (tagsOf "a")
          "PogU KEKW")
        (tagsOf "b") "PogU KEKW" false).2 = [] ∧
    (onMessage asciiLower sampleConfig sampleWorld
        (afterMessage asciiLower sampleConfig sampleWorld
          (afterMessage asciiLower sampleConfig sampleWorld pairState (tagsOf "a")
            "PogU KEKW")
          (tagsOf "b") "PogU KEKW")
        (tagsOf "c") "PogU KEKW" false).2.map (fun r => r.text) = ["PogU"] ∧
    usersOf (afterMessage asciiLower sampleConfig sampleWorld
        (afterMessage asciiLower sampleConfig sampleWorld
          (afterMessage asciiLower sampleConfig sampleWorld pairState (tagsOf "a")
            "PogU KEKW")
          (tagsOf "b") "PogU KEKW")
        (tagsOf "c") "PogU KEKW")
      (asciiLower "KEKW") = {"a", "b"} ∧
    ¬ (usersOf (afterMessage asciiLower sampleConfig sampleWorld
        (afterMessage asciiLower sampleConfig sampleWorld
          (afterMessage asciiLower sampleConfig sampleWorld pairState (tagsOf "a")
            "PogU KEKW")
          (tagsOf "b") "PogU KEKW")
        (tagsOf "c") "PogU KEKW")
      (asciiLower "KEKW") = ∅) := by
  refine ⟨by decide, by decide, ⟨"KEKW", by decide, by decide⟩, ?_,
    sampleWorld_draw_below, by decide!, by decide!, by decide!, by decide!, by decide!⟩
  intro n
  have h0 : pairState.lastResponseTime = 0 := by decide
  rw [h0]
  exact sampleWorld_cooldown_elapsed n

end Bot
